import Mathlib

/-!
Shallow embedding of the radix-tree router (package `radix`), second revision
of `src/radix.go` (the one with `NodeWrapper`, per-node `nodeSize`, and the
stubbed `Delete`).  Go strings are modelled as `List Char` (a segment's leading
sigil byte is its head character), Go maps as association lists in insertion
order, Go slices as Lean lists with value semantics, the opaque non-nil
`Handler` values as `Nat`, and the `atomic.Uint32` node size as a `Nat`
reduced modulo 2^32 on every increment.  A `*Node` handle (`NodeWrapper`) is
represented by the access path from the root to the node; the write-once
`parent` pointer of the source corresponds to dropping the last step of that
path.
-/

/-- One path segment (a Go string). -/
abbrev Seg := List Char

/-- NodeType of the source: Static, ParamNode (":param"), Wildcard ("*wildcard"). -/
inductive NodeType where
  | Static
  | ParamNode
  | Wildcard
deriving DecidableEq, Repr

/-- Node of the source.  Fields in source order: `nodeType`, `path`,
`static_children`, `params_children`, `wildcard_children`, `handler`,
`paramName`, `isWildcard`, and the atomic `nodeSize`.  The `parent`
back-pointer is not stored; it is recovered from access paths. -/
inductive Node where
  | mk (nodeType : NodeType) (path : Seg)
       (static_children : List (Seg × Node))
       (params_children : List (Seg × Node))
       (wildcard_children : List (Seg × Node))
       (handler : Option Nat) (paramName : Seg) (isWildcard : Bool)
       (nodeSize : Nat) : Node

def Node.nodeType : Node → NodeType
  | .mk t _ _ _ _ _ _ _ _ => t

def Node.path : Node → Seg
  | .mk _ p _ _ _ _ _ _ _ => p

def Node.static_children : Node → List (Seg × Node)
  | .mk _ _ sc _ _ _ _ _ _ => sc

def Node.params_children : Node → List (Seg × Node)
  | .mk _ _ _ pc _ _ _ _ _ => pc

def Node.wildcard_children : Node → List (Seg × Node)
  | .mk _ _ _ _ wc _ _ _ _ => wc

def Node.handler : Node → Option Nat
  | .mk _ _ _ _ _ h _ _ _ => h

def Node.paramName : Node → Seg
  | .mk _ _ _ _ _ _ pn _ _ => pn

def Node.isWildcard : Node → Bool
  | .mk _ _ _ _ _ _ _ w _ => w

def Node.nodeSize : Node → Nat
  | .mk _ _ _ _ _ _ _ _ sz => sz

/-- `node.handler = handler` assignment of the source. -/
def Node.withHandler : Node → Option Nat → Node
  | .mk t p sc pc wc _ pn w sz, h => .mk t p sc pc wc h pn w sz

/-- `node.static_children = ...` assignment of the source. -/
def Node.withStatic : Node → List (Seg × Node) → Node
  | .mk t p _ pc wc h pn w sz, sc => .mk t p sc pc wc h pn w sz

/-- `node.params_children = ...` assignment of the source. -/
def Node.withParams : Node → List (Seg × Node) → Node
  | .mk t p sc _ wc h pn w sz, pc => .mk t p sc pc wc h pn w sz

/-- `node.wildcard_children = ...` assignment of the source. -/
def Node.withWildcards : Node → List (Seg × Node) → Node
  | .mk t p sc pc _ h pn w sz, wc => .mk t p sc pc wc h pn w sz

/-- 2^32, the modulus of the `atomic.Uint32` size counter. -/
def U32 : Nat := 4294967296

/-- `node.nodeSize.Add(1)` of the source (uint32 wrap-around). -/
def Node.incSize : Node → Node
  | .mk t p sc pc wc h pn w sz => .mk t p sc pc wc h pn w ((sz + 1) % U32)

/-- Go map read `m[key]` (association list scanned in insertion order). -/
def lookupChild : List (Seg × Node) → Seg → Option Node
  | [], _ => none
  | (k, c) :: rest, key => if k = key then some c else lookupChild rest key

/-- Go map write `m[key] = v`: replace the entry for `key`, or append a new
entry (insertion order is the model's iteration order). -/
def setChild : List (Seg × Node) → Seg → Node → List (Seg × Node)
  | [], key, v => [(key, v)]
  | (k, c) :: rest, key, v =>
    if k = key then (key, v) :: rest else (k, c) :: setChild rest key v

/-- The `for _, child := range node.params_children` scan of `addParamChild`,
which searches by the child's `paramName` field. -/
def findParamChild : List (Seg × Node) → Seg → Option Node
  | [], _ => none
  | (_, c) :: rest, p => if c.paramName = p then some c else findParamChild rest p

/-- Write-back of the in-place mutation of the param child found by
`findParamChild`: the matching entry keeps its key and now holds the updated
node. -/
def setParamChild : List (Seg × Node) → Seg → Node → List (Seg × Node)
  | [], _, _ => []
  | (k, c) :: rest, p, v =>
    if c.paramName = p then (k, v) :: rest else (k, c) :: setParamChild rest p v

/-- `strings.HasPrefix(segment, "*")`. -/
def startsWithStar : Seg → Bool
  | '*' :: _ => true
  | _ => false

/-- `strings.HasPrefix(segment, ":")`. -/
def startsWithColon : Seg → Bool
  | ':' :: _ => true
  | _ => false

/-- `segment[1:]` (the sigil is one byte). -/
def dropSigil (s : Seg) : Seg := s.drop 1

/-- RouteParam of the source: `Key` and consumed `Values`. -/
abbrev Params := List (Seg × List Seg)

/-- Route of the source: a matched handler with its ordered bindings. -/
structure Route where
  Handler : Nat
  Params : List (Seg × List Seg)
deriving DecidableEq, Repr

/-- `addWildcardChild` of the source.  A handle is the access path from the
node the helper was called on, so the fresh child's handle is `[segment]`. -/
def addWildcardChild (node : Node) (segment : Seg) (remaining : List Seg)
    (handler : Nat) : Node × Except String (List Seg) :=
  match remaining with
  | _ :: _ => (node, Except.error "wildcard must be the last segment")
  | [] =>
    let child : Node :=
      .mk NodeType.Wildcard segment [] [] [] (some handler) (dropSigil segment) true 0
    match lookupChild node.wildcard_children (dropSigil segment) with
    | some _ => (node, Except.error "handler already exists for this path")
    | none =>
      (node.withWildcards (setChild node.wildcard_children (dropSigil segment) child),
       Except.ok [segment])

/-- Prefix a successful handle path with the segment consumed at this level. -/
def prefixOk (segment : Seg) : Except String (List Seg) → Except String (List Seg)
  | Except.ok p => Except.ok (segment :: p)
  | Except.error e => Except.error e

/-- `addParamChild` of the source; `rec` is the recursive `addRoute` on the
remaining segments. -/
def addParamChild (rec : Node → Node × Except String (List Seg))
    (node : Node) (segment : Seg) : Node × Except String (List Seg) :=
  let segmentParam := dropSigil segment
  match findParamChild node.params_children segmentParam with
  | some child =>
    let r := rec child
    (node.withParams (setParamChild node.params_children segmentParam r.1),
     prefixOk segment r.2)
  | none =>
    let child : Node :=
      .mk NodeType.ParamNode segment [] [] [] none segmentParam false 0
    let r := rec child
    match r.2 with
    | Except.error e => (node, Except.error e)
    | Except.ok p =>
      match lookupChild node.params_children segmentParam with
      | some _ => (node, Except.error "handler already exists for this path")
      | none =>
        (node.withParams (setChild node.params_children segmentParam r.1),
         Except.ok (segment :: p))

/-- `addStaticChild` of the source; `rec` is the recursive `addRoute` on the
remaining segments. -/
def addStaticChild (rec : Node → Node × Except String (List Seg))
    (node : Node) (segment : Seg) : Node × Except String (List Seg) :=
  match lookupChild node.static_children segment with
  | some child =>
    let r := rec child
    (node.withStatic (setChild node.static_children segment r.1),
     prefixOk segment r.2)
  | none =>
    let child : Node := .mk NodeType.Static segment [] [] [] none [] false 0
    let r := rec child
    match r.2 with
    | Except.error e => (node, Except.error e)
    | Except.ok p =>
      (node.withStatic (setChild node.static_children segment r.1),
       Except.ok (segment :: p))

/-- `addRoute` of the source.  Returns the node after the call together with
either the handle path of the terminal node or the error; on a successful
return at this level, this node's size is incremented by one. -/
def addRoute (node : Node) (segments : List Seg) (handler : Nat) :
    Node × Except String (List Seg) :=
  match segments with
  | [] =>
    match node.handler with
    | some _ => (node, Except.error "handler already exists for this path")
    | none => (node.withHandler (some handler), Except.ok [])
  | segment :: remaining =>
    let r :=
      if startsWithStar segment then
        addWildcardChild node segment remaining handler
      else if startsWithColon segment then
        addParamChild (fun child => addRoute child remaining handler) node segment
      else
        addStaticChild (fun child => addRoute child remaining handler) node segment
    match r.2 with
    | Except.ok p => (r.1.incSize, Except.ok p)
    | Except.error e => (r.1, Except.error e)

/-- The `for _, child := range node.params_children` loop of `getValue`:
each param child binds the current segment as a one-element value list and
recursion continues on the remainder (`rec`); non-empty results are appended
to the accumulated routes. -/
def getParamChildren (rec : Node → Params → List Route)
    (children : List (Seg × Node)) (segment : Seg) (params : Params)
    (routes : List Route) : List Route :=
  match children with
  | [] => routes
  | (_, child) :: rest =>
    let newParams := params ++ [(child.paramName, [segment])]
    let newRoutes := rec child newParams
    let routes := if newRoutes.isEmpty then routes else routes ++ newRoutes
    getParamChildren rec rest segment params routes

/-- The wildcard loop of `getValue`: each wildcard child with a handler
contributes one route binding all remaining segments. -/
def getWildcardChildren (children : List (Seg × Node)) (segments : List Seg)
    (params : Params) (routes : List Route) : List Route :=
  match children with
  | [] => routes
  | (_, child) :: rest =>
    let routes :=
      match child.handler with
      | some h =>
        routes ++ [{ Handler := h, Params := params ++ [(child.paramName, segments)] }]
      | none => routes
    getWildcardChildren rest segments params routes

/-- `getValue` of the source: static child first, then every param child,
then (unless the wildcard map is nil) every wildcard child. -/
def getValue (node : Node) (segments : List Seg) (params : Params) : List Route :=
  match segments with
  | [] =>
    match node.handler with
    | some h => [{ Handler := h, Params := params }]
    | none => []
  | segment :: remaining =>
    let routes : List Route := []
    let routes :=
      match lookupChild node.static_children segment with
      | some child =>
        let newRoutes := getValue child remaining params
        if newRoutes.isEmpty then routes else routes ++ newRoutes
      | none => routes
    let routes :=
      getParamChildren (fun child ps => getValue child remaining ps)
        node.params_children segment params routes
    match node.wildcard_children with
    | [] => routes
    | _ => getWildcardChildren node.wildcard_children (segment :: remaining) params routes

/-- RadixTree of the source: owner of the root node. -/
structure RadixTree where
  root : Node

/-- `NewRadixTree`: a zero-value root with nil parent. -/
def NewRadixTree : RadixTree :=
  ⟨.mk NodeType.Static [] [] [] [] none [] false 0⟩

/-- `Add` of the source; the handle is the terminal node's access path. -/
def RadixTree.Add (t : RadixTree) (path : List Seg) (handler : Nat) :
    RadixTree × Except String (List Seg) :=
  let r := addRoute t.root path handler
  (⟨r.1⟩, r.2)

/-- `Get` of the source. -/
def RadixTree.Get (t : RadixTree) (path : List Seg) : List Route :=
  getValue t.root path []

/-- `Size` of the source: the root's size counter. -/
def RadixTree.Size (t : RadixTree) : Nat := t.root.nodeSize

/-- `Delete` of the source: it only returns an error. -/
def RadixTree.Delete (_ : RadixTree) (_ : List Seg) : Except String Unit :=
  Except.error "delete operation is not implemented"

/-- Pointer dereference for one handle step: the dispatch mirrors the segment
classification of `addRoute`. -/
def childFor (node : Node) (s : Seg) : Option Node :=
  if startsWithStar s then lookupChild node.wildcard_children (dropSigil s)
  else if startsWithColon s then findParamChild node.params_children (dropSigil s)
  else lookupChild node.static_children s

/-- Resolve a handle path to the node it references. -/
def subNode (node : Node) : List Seg → Option Node
  | [] => some node
  | s :: rest =>
    match childFor node s with
    | some c => subNode c rest
    | none => none

/-- NodeWrapper of the source: a read-only handle on one node, here the
owning root together with the access path of the node. -/
structure NodeWrapper where
  root : Node
  path : List Seg

/-- The node a wrapper references. -/
def NodeWrapper.node (nw : NodeWrapper) : Option Node := subNode nw.root nw.path

/-- `PathName` of the source: the node's raw stored text. -/
def NodeWrapper.PathName (nw : NodeWrapper) : Seg :=
  ((nw.node).map Node.path).getD []

/-- `Parent` of the source: the parent handle plus a presence flag that is
false exactly when the node is the root (nil parent pointer). -/
def NodeWrapper.Parent (nw : NodeWrapper) : NodeWrapper × Bool :=
  (⟨nw.root, nw.path.dropLast⟩, !nw.path.isEmpty)

/-- `Size` of the source: the referenced node's size counter. -/
def NodeWrapper.Size (nw : NodeWrapper) : Nat :=
  ((nw.node).map Node.nodeSize).getD 0

/-- `Equal` of the source: identity of the referenced node. -/
def NodeWrapper.Equal (nw w : NodeWrapper) : Bool :=
  nw.path = w.path

/-- Stored text of the node referenced by a handle path. -/
def pathNameAt (root : Node) (w : List Seg) : Seg :=
  ((subNode root w).map Node.path).getD []

/-- Walk from the node along parent links, collecting each visited node's
stored text, stopping below the root. -/
def parentChain (root : Node) (w : List Seg) : List Seg :=
  match w with
  | [] => []
  | s :: rest => pathNameAt root (s :: rest) :: parentChain root (s :: rest).dropLast
termination_by w.length
decreasing_by simp [List.length_dropLast]

/-- Modelled from the spec: `NodeWrapper.Path` is absent from the sources
(only the race test calls it).  Per the spec it returns "the full
root-to-node segment sequence, reconstructed by walking parent links and
reversing". -/
def NodeWrapper.Path (nw : NodeWrapper) : List Seg :=
  (parentChain nw.root nw.path).reverse

/-- Apply a sequence of `Add` requests, keeping the tree each call returns. -/
def applyAdds (reqs : List (List Seg × Nat)) (t : RadixTree) : RadixTree :=
  match reqs with
  | [] => t
  | (p, h) :: rest => applyAdds rest (t.Add p h).1

mutual

/-- Number of handler-bearing nodes in a node's subtree, the node included. -/
def countSub : Node → Nat
  | .mk _ _ sc pc wc h _ _ _ =>
    (match h with | some _ => 1 | none => 0) +
      (countSubL sc + countSubL pc + countSubL wc)

/-- Sum of `countSub` over a child collection. -/
def countSubL : List (Seg × Node) → Nat
  | [] => 0
  | (_, c) :: rest => countSub c + countSubL rest

end

/-- Number of handler-bearing nodes strictly below a node. -/
def properCount (n : Node) : Nat :=
  countSubL n.static_children + countSubL n.params_children +
    countSubL n.wildcard_children

mutual

/-- Every node of the subtree has `nodeSize` equal (mod 2^32) to the number
of handler-bearing nodes strictly below it. -/
def sizeAccurate : Node → Bool
  | .mk _ _ sc pc wc _ _ _ sz =>
    decide (sz = (countSubL sc + countSubL pc + countSubL wc) % U32) &&
      sizeAccurateL sc && sizeAccurateL pc && sizeAccurateL wc

/-- `sizeAccurate` over a child collection. -/
def sizeAccurateL : List (Seg × Node) → Bool
  | [] => true
  | (_, c) :: rest => sizeAccurate c && sizeAccurateL rest

end

/-- A node with empty child collections. -/
def noChildren (n : Node) : Bool :=
  n.static_children.isEmpty && n.params_children.isEmpty &&
    n.wildcard_children.isEmpty

/-- Every wildcard child in the collection is a leaf. -/
def wildLeaves : List (Seg × Node) → Bool
  | [] => true
  | (_, c) :: rest => noChildren c && wildLeaves rest

mutual

/-- Every wildcard node anywhere in the subtree is a leaf (path-terminal). -/
def wildTerminal : Node → Bool
  | .mk _ _ sc pc wc _ _ _ _ =>
    wildLeaves wc && wildTerminalL sc && wildTerminalL pc

/-- `wildTerminal` over a child collection. -/
def wildTerminalL : List (Seg × Node) → Bool
  | [] => true
  | (_, c) :: rest => wildTerminal c && wildTerminalL rest

end

mutual

/-- Key coherence of the child maps, everywhere in the subtree: a static
entry's key is the child's stored text, a param entry's key is the child's
parameter name with stored text `:` ++ key, a wildcard entry's key is the
child's parameter name with stored text `*` ++ key. -/
def keysOK : Node → Bool
  | .mk _ _ sc pc wc _ _ _ _ =>
    keysOKStatic sc && keysOKParam pc && keysOKWild wc

def keysOKStatic : List (Seg × Node) → Bool
  | [] => true
  | (k, c) :: rest => decide (c.path = k) && keysOK c && keysOKStatic rest

def keysOKParam : List (Seg × Node) → Bool
  | [] => true
  | (k, c) :: rest =>
    decide (c.paramName = k ∧ c.path = ':' :: k) && keysOK c && keysOKParam rest

def keysOKWild : List (Seg × Node) → Bool
  | [] => true
  | (k, c) :: rest =>
    decide (c.paramName = k ∧ c.path = '*' :: k) && keysOK c && keysOKWild rest

end

/-- Segments that `addRoute` treats as literal text. -/
def isStaticSeg (s : Seg) : Bool := !startsWithStar s && !startsWithColon s

/-- A node with no children and no handler (the state of every freshly
created pass-through node, and of the root of `NewRadixTree`). -/
def Bare (n : Node) : Prop :=
  n.static_children = [] ∧ n.params_children = [] ∧ n.wildcard_children = [] ∧
    n.handler = none


instance exceptDecEq {ε α : Type} [DecidableEq ε] [DecidableEq α] :
    DecidableEq (Except ε α) := fun a b =>
  match a, b with
  | Except.ok a, Except.ok b =>
    if h : a = b then isTrue (h ▸ rfl) else isFalse fun c => h (Except.ok.inj c)
  | Except.error e, Except.error f =>
    if h : e = f then isTrue (h ▸ rfl) else isFalse fun c => h (Except.error.inj c)
  | Except.ok _, Except.error _ => isFalse fun c => Except.noConfusion c
  | Except.error _, Except.ok _ => isFalse fun c => Except.noConfusion c

section BasicLemmas

@[simp] theorem handler_mk (t p sc pc wc h pn w sz) :
    (Node.mk t p sc pc wc h pn w sz).handler = h := rfl

@[simp] theorem path_mk (t p sc pc wc h pn w sz) :
    (Node.mk t p sc pc wc h pn w sz).path = p := rfl

@[simp] theorem paramName_mk (t p sc pc wc h pn w sz) :
    (Node.mk t p sc pc wc h pn w sz).paramName = pn := rfl

@[simp] theorem nodeSize_mk (t p sc pc wc h pn w sz) :
    (Node.mk t p sc pc wc h pn w sz).nodeSize = sz := rfl

@[simp] theorem static_children_mk (t p sc pc wc h pn w sz) :
    (Node.mk t p sc pc wc h pn w sz).static_children = sc := rfl

@[simp] theorem params_children_mk (t p sc pc wc h pn w sz) :
    (Node.mk t p sc pc wc h pn w sz).params_children = pc := rfl

@[simp] theorem wildcard_children_mk (t p sc pc wc h pn w sz) :
    (Node.mk t p sc pc wc h pn w sz).wildcard_children = wc := rfl

@[simp] theorem withHandler_mk (t p sc pc wc h pn w sz h2) :
    (Node.mk t p sc pc wc h pn w sz).withHandler h2 = .mk t p sc pc wc h2 pn w sz := rfl

@[simp] theorem withStatic_mk (t p sc pc wc h pn w sz sc2) :
    (Node.mk t p sc pc wc h pn w sz).withStatic sc2 = .mk t p sc2 pc wc h pn w sz := rfl

@[simp] theorem withParams_mk (t p sc pc wc h pn w sz pc2) :
    (Node.mk t p sc pc wc h pn w sz).withParams pc2 = .mk t p sc pc2 wc h pn w sz := rfl

@[simp] theorem withWildcards_mk (t p sc pc wc h pn w sz wc2) :
    (Node.mk t p sc pc wc h pn w sz).withWildcards wc2 = .mk t p sc pc wc2 h pn w sz := rfl

@[simp] theorem incSize_mk (t p sc pc wc h pn w sz) :
    (Node.mk t p sc pc wc h pn w sz).incSize = .mk t p sc pc wc h pn w ((sz + 1) % U32) := rfl

theorem withStatic_self (n : Node) : n.withStatic n.static_children = n := by
  cases n; rfl

theorem withParams_self (n : Node) : n.withParams n.params_children = n := by
  cases n; rfl

@[simp] theorem prefixOk_ok (s : Seg) (p : List Seg) :
    prefixOk s (Except.ok p) = Except.ok (s :: p) := rfl

@[simp] theorem prefixOk_error (s : Seg) (e : String) :
    prefixOk s (Except.error e) = Except.error e := rfl

theorem prefixOk_eq_error {s : Seg} {r : Except String (List Seg)} {e : String}
    (h : prefixOk s r = Except.error e) : r = Except.error e := by
  cases r with
  | ok p => simp [prefixOk] at h
  | error f => simpa [prefixOk] using h

theorem prefixOk_eq_ok {s : Seg} {r : Except String (List Seg)} {w : List Seg}
    (h : prefixOk s r = Except.ok w) : ∃ p, r = Except.ok p ∧ w = s :: p := by
  cases r with
  | ok p => exact ⟨p, rfl, by simpa [prefixOk] using h.symm⟩
  | error f => simp [prefixOk] at h

@[simp] theorem startsWithStar_star (t : Seg) : startsWithStar ('*' :: t) = true := rfl

@[simp] theorem startsWithStar_colon (t : Seg) : startsWithStar (':' :: t) = false := rfl

@[simp] theorem startsWithColon_colon (t : Seg) : startsWithColon (':' :: t) = true := rfl

@[simp] theorem startsWithColon_star (t : Seg) : startsWithColon ('*' :: t) = false := rfl

@[simp] theorem dropSigil_cons (c : Char) (t : Seg) : dropSigil (c :: t) = t := rfl

theorem startsWithStar_eq {s : Seg} (h : startsWithStar s = true) :
    s = '*' :: dropSigil s := by
  match s with
  | [] => simp [startsWithStar] at h
  | c :: t =>
    simp only [startsWithStar] at h
    split at h
    · next heq => injection heq with hc _; subst hc; rfl
    · simp at h

theorem startsWithColon_eq {s : Seg} (h : startsWithColon s = true) :
    s = ':' :: dropSigil s := by
  match s with
  | [] => simp [startsWithColon] at h
  | c :: t =>
    simp only [startsWithColon] at h
    split at h
    · next heq => injection heq with hc _; subst hc; rfl
    · simp at h

theorem isStaticSeg_eq {s : Seg} (h : isStaticSeg s = true) :
    startsWithStar s = false ∧ startsWithColon s = false := by
  simp [isStaticSeg] at h
  exact h

-- Association-list lemmas (Go map model).

theorem lookupChild_setChild_self (l : List (Seg × Node)) (k : Seg) (v : Node) :
    lookupChild (setChild l k v) k = some v := by
  induction l with
  | nil => simp [setChild, lookupChild]
  | cons kv rest ih =>
    obtain ⟨k2, c⟩ := kv
    by_cases hk : k2 = k
    · simp [setChild, hk, lookupChild]
    · simp [setChild, hk, lookupChild, ih]

theorem setChild_of_lookup_none {l : List (Seg × Node)} {k : Seg}
    (h : lookupChild l k = none) (v : Node) : setChild l k v = l ++ [(k, v)] := by
  induction l with
  | nil => simp [setChild]
  | cons kv rest ih =>
    obtain ⟨k2, c⟩ := kv
    by_cases hk : k2 = k
    · simp [lookupChild, hk] at h
    · simp [lookupChild, hk] at h
      simp [setChild, hk, ih h]

theorem setChild_of_lookup_some {l : List (Seg × Node)} {k : Seg} {c : Node}
    (h : lookupChild l k = some c) : setChild l k c = l := by
  induction l with
  | nil => simp [lookupChild] at h
  | cons kv rest ih =>
    obtain ⟨k2, c2⟩ := kv
    by_cases hk : k2 = k
    · subst hk
      simp [lookupChild] at h
      simp [setChild, h]
    · simp [lookupChild, hk] at h
      simp [setChild, hk, ih h]

theorem lookupChild_append_of_none {l : List (Seg × Node)} {k : Seg}
    (h : lookupChild l k = none) (v : Node) :
    lookupChild (l ++ [(k, v)]) k = some v := by
  induction l with
  | nil => simp [lookupChild]
  | cons kv rest ih =>
    obtain ⟨k2, c⟩ := kv
    by_cases hk : k2 = k
    · simp [lookupChild, hk] at h
    · simp [lookupChild, hk] at h
      simp [lookupChild, hk, ih h]

theorem setParamChild_of_find_none {l : List (Seg × Node)} {p : Seg}
    (h : findParamChild l p = none) (v : Node) : setParamChild l p v = l := by
  induction l with
  | nil => simp [setParamChild]
  | cons kv rest ih =>
    obtain ⟨k2, c⟩ := kv
    by_cases hp : c.paramName = p
    · simp [findParamChild, hp] at h
    · simp [findParamChild, hp] at h
      simp [setParamChild, hp, ih h]

theorem setParamChild_of_find_self {l : List (Seg × Node)} {p : Seg} {c : Node}
    (h : findParamChild l p = some c) : setParamChild l p c = l := by
  induction l with
  | nil => simp [findParamChild] at h
  | cons kv rest ih =>
    obtain ⟨k2, c2⟩ := kv
    by_cases hp : c2.paramName = p
    · simp [findParamChild, hp] at h
      subst h
      simp [setParamChild, hp]
    · simp [findParamChild, hp] at h
      simp [setParamChild, hp, ih h]

theorem findParamChild_setParamChild {l : List (Seg × Node)} {p : Seg} {c : Node}
    (h : findParamChild l p = some c) {v : Node} (hv : v.paramName = p) :
    findParamChild (setParamChild l p v) p = some v := by
  induction l with
  | nil => simp [findParamChild] at h
  | cons kv rest ih =>
    obtain ⟨k2, c2⟩ := kv
    by_cases hp : c2.paramName = p
    · simp [setParamChild, hp, findParamChild, hv]
    · simp [findParamChild, hp] at h
      simp [setParamChild, hp, findParamChild, ih h]

theorem findParamChild_append_of_none {l : List (Seg × Node)} {p : Seg}
    (h : findParamChild l p = none) {k : Seg} {v : Node} (hv : v.paramName = p) :
    findParamChild (l ++ [(k, v)]) p = some v := by
  induction l with
  | nil => simp [findParamChild, hv]
  | cons kv rest ih =>
    obtain ⟨k2, c⟩ := kv
    by_cases hp : c.paramName = p
    · simp [findParamChild, hp] at h
    · simp [findParamChild, hp] at h
      simp [findParamChild, hp, ih h]

theorem findParamChild_paramName {l : List (Seg × Node)} {p : Seg} {c : Node}
    (h : findParamChild l p = some c) : c.paramName = p := by
  induction l with
  | nil => simp [findParamChild] at h
  | cons kv rest ih =>
    obtain ⟨k2, c2⟩ := kv
    by_cases hp : c2.paramName = p
    · simp [findParamChild, hp] at h
      subst h; exact hp
    · simp [findParamChild, hp] at h
      exact ih h

@[simp] theorem countSubL_nil : countSubL [] = 0 := by rw [countSubL]

@[simp] theorem countSubL_cons (k : Seg) (c : Node) (rest : List (Seg × Node)) :
    countSubL ((k, c) :: rest) = countSub c + countSubL rest := by rw [countSubL]

theorem countSub_mk (t p sc pc wc h pn w sz) :
    countSub (Node.mk t p sc pc wc h pn w sz) =
      (match h with | some _ => 1 | none => 0) +
        (countSubL sc + countSubL pc + countSubL wc) := by rw [countSub.eq_def]

theorem countSubL_append (l m : List (Seg × Node)) :
    countSubL (l ++ m) = countSubL l + countSubL m := by
  induction l with
  | nil => simp
  | cons kv rest ih => obtain ⟨k, c⟩ := kv; simp [ih]; omega

theorem countSubL_setChild {l : List (Seg × Node)} {k : Seg} {c : Node}
    (h : lookupChild l k = some c) (v : Node) :
    countSubL (setChild l k v) + countSub c = countSubL l + countSub v := by
  induction l with
  | nil => simp [lookupChild] at h
  | cons kv rest ih =>
    obtain ⟨k2, c2⟩ := kv
    by_cases hk : k2 = k
    · subst hk
      simp [lookupChild] at h
      subst h
      simp [setChild]
      omega
    · simp [lookupChild, hk] at h
      simp [setChild, hk]
      have := ih h
      omega

theorem countSubL_setParamChild {l : List (Seg × Node)} {p : Seg} {c : Node}
    (h : findParamChild l p = some c) (v : Node) :
    countSubL (setParamChild l p v) + countSub c = countSubL l + countSub v := by
  induction l with
  | nil => simp [findParamChild] at h
  | cons kv rest ih =>
    obtain ⟨k2, c2⟩ := kv
    by_cases hp : c2.paramName = p
    · simp [findParamChild, hp] at h
      subst h
      simp [setParamChild, hp]
      omega
    · simp [findParamChild, hp] at h
      simp [setParamChild, hp]
      have := ih h
      omega

@[simp] theorem sizeAccurateL_nil : sizeAccurateL [] = true := by rw [sizeAccurateL]

@[simp] theorem sizeAccurateL_cons (k : Seg) (c : Node) (rest : List (Seg × Node)) :
    sizeAccurateL ((k, c) :: rest) = (sizeAccurate c && sizeAccurateL rest) := by
  rw [sizeAccurateL]

theorem sizeAccurate_mk (t p sc pc wc h pn w sz) :
    sizeAccurate (Node.mk t p sc pc wc h pn w sz) =
      (decide (sz = (countSubL sc + countSubL pc + countSubL wc) % U32) &&
        sizeAccurateL sc && sizeAccurateL pc && sizeAccurateL wc) := by rw [sizeAccurate]

theorem sizeAccurateL_append {l m : List (Seg × Node)} :
    sizeAccurateL (l ++ m) = (sizeAccurateL l && sizeAccurateL m) := by
  induction l with
  | nil => simp
  | cons kv rest ih => obtain ⟨k, c⟩ := kv; simp [ih, Bool.and_assoc]

theorem sizeAccurateL_lookup {l : List (Seg × Node)} {k : Seg} {c : Node}
    (hl : sizeAccurateL l = true) (h : lookupChild l k = some c) :
    sizeAccurate c = true := by
  induction l with
  | nil => simp [lookupChild] at h
  | cons kv rest ih =>
    obtain ⟨k2, c2⟩ := kv
    simp at hl
    by_cases hk : k2 = k
    · subst hk; simp [lookupChild] at h; subst h; exact hl.1
    · simp [lookupChild, hk] at h
      exact ih hl.2 h

theorem sizeAccurateL_find {l : List (Seg × Node)} {p : Seg} {c : Node}
    (hl : sizeAccurateL l = true) (h : findParamChild l p = some c) :
    sizeAccurate c = true := by
  induction l with
  | nil => simp [findParamChild] at h
  | cons kv rest ih =>
    obtain ⟨k2, c2⟩ := kv
    simp at hl
    by_cases hp : c2.paramName = p
    · simp [findParamChild, hp] at h; subst h; exact hl.1
    · simp [findParamChild, hp] at h
      exact ih hl.2 h

theorem sizeAccurateL_setChild {l : List (Seg × Node)} {k : Seg}
    (hl : sizeAccurateL l = true) {v : Node} (hv : sizeAccurate v = true) :
    sizeAccurateL (setChild l k v) = true := by
  induction l with
  | nil => simp [setChild, hv]
  | cons kv rest ih =>
    obtain ⟨k2, c2⟩ := kv
    simp at hl
    by_cases hk : k2 = k
    · simp [setChild, hk, hv, hl.2]
    · simp [setChild, hk, hl.1, ih hl.2]

theorem sizeAccurateL_setParamChild {l : List (Seg × Node)} {p : Seg}
    (hl : sizeAccurateL l = true) {v : Node} (hv : sizeAccurate v = true) :
    sizeAccurateL (setParamChild l p v) = true := by
  induction l with
  | nil => simp [setParamChild]
  | cons kv rest ih =>
    obtain ⟨k2, c2⟩ := kv
    simp at hl
    by_cases hp : c2.paramName = p
    · simp [setParamChild, hp, hv, hl.2]
    · simp [setParamChild, hp, hl.1, ih hl.2]

/-- `addRoute` never changes the node's stored text or parameter name. -/
theorem addRoute_core (node : Node) (segs : List Seg) (h : Nat) :
    ((addRoute node segs h).1).path = node.path ∧
      ((addRoute node segs h).1).paramName = node.paramName := by
  obtain ⟨t, p, sc, pc, wc, hd, pn, iw, sz⟩ := node
  cases segs with
  | nil =>
    cases hd with
    | some h0 => simp [addRoute]
    | none => simp [addRoute]
  | cons segment remaining =>
    by_cases hstar : startsWithStar segment
    · simp only [addRoute, hstar, if_true]
      cases remaining with
      | cons a b => simp [addWildcardChild]
      | nil =>
        cases hl : lookupChild wc (dropSigil segment) with
        | some c => simp [addWildcardChild, hl]
        | none => simp [addWildcardChild, hl]
    · by_cases hcolon : startsWithColon segment
      · simp only [addRoute, hstar, hcolon, if_true, if_false, Bool.false_eq_true]
        cases hf : findParamChild pc (dropSigil segment) with
        | some child =>
          cases hr : (addRoute child remaining h).2 with
          | ok q => simp [addParamChild, hf, hr]
          | error e => simp [addParamChild, hf, hr]
        | none =>
          cases hr : (addRoute (Node.mk NodeType.ParamNode segment [] [] [] none
              (dropSigil segment) false 0) remaining h).2 with
          | ok q =>
            cases hl : lookupChild pc (dropSigil segment) with
            | some c => simp [addParamChild, hf, hr, hl]
            | none => simp [addParamChild, hf, hr, hl]
          | error e => simp [addParamChild, hf, hr]
      · simp only [addRoute, hstar, hcolon, if_false, Bool.false_eq_true]
        cases hl : lookupChild sc segment with
        | some child =>
          cases hr : (addRoute child remaining h).2 with
          | ok q => simp [addStaticChild, hl, hr]
          | error e => simp [addStaticChild, hl, hr]
        | none =>
          cases hr : (addRoute (Node.mk NodeType.Static segment [] [] [] none
              [] false 0) remaining h).2 with
          | ok q => simp [addStaticChild, hl, hr]
          | error e => simp [addStaticChild, hl, hr]

/-- A failed `addRoute` call leaves the node (hence the whole tree) exactly
as it was. -/
theorem addRoute_error_eq :
    ∀ (segs : List Seg) (node : Node) (h : Nat) (e : String),
      (addRoute node segs h).2 = Except.error e → (addRoute node segs h).1 = node := by
  intro segs
  induction segs with
  | nil =>
    intro node h e H
    cases hh : node.handler with
    | some h0 => simp [addRoute, hh]
    | none => simp [addRoute, hh] at H
  | cons segment remaining ih =>
    intro node h e H
    by_cases hstar : startsWithStar segment
    · simp only [addRoute, hstar, if_true] at H ⊢
      cases remaining with
      | cons a b => simp [addWildcardChild] at H ⊢
      | nil =>
        cases hl : lookupChild node.wildcard_children (dropSigil segment) with
        | some c => simp [addWildcardChild, hl] at H ⊢
        | none => simp [addWildcardChild, hl] at H
    · by_cases hcolon : startsWithColon segment
      · simp only [addRoute, hstar, hcolon, if_true, if_false, Bool.false_eq_true] at H ⊢
        cases hf : findParamChild node.params_children (dropSigil segment) with
        | some child =>
          cases hr : (addRoute child remaining h).2 with
          | ok q => simp [addParamChild, hf, hr] at H
          | error e0 =>
            simp [addParamChild, hf, hr] at H ⊢
            have hc : (addRoute child remaining h).1 = child := ih child h e0 hr
            rw [hc, setParamChild_of_find_self hf, withParams_self]
        | none =>
          cases hr : (addRoute (Node.mk NodeType.ParamNode segment [] [] [] none
              (dropSigil segment) false 0) remaining h).2 with
          | ok q =>
            cases hl : lookupChild node.params_children (dropSigil segment) with
            | some c => simp [addParamChild, hf, hr, hl] at H ⊢
            | none => simp [addParamChild, hf, hr, hl] at H
          | error e0 => simp [addParamChild, hf, hr] at H ⊢
      · simp only [addRoute, hstar, hcolon, if_false, Bool.false_eq_true] at H ⊢
        cases hl : lookupChild node.static_children segment with
        | some child =>
          cases hr : (addRoute child remaining h).2 with
          | ok q => simp [addStaticChild, hl, hr] at H
          | error e0 =>
            simp [addStaticChild, hl, hr] at H ⊢
            have hc : (addRoute child remaining h).1 = child := ih child h e0 hr
            rw [hc, setChild_of_lookup_some hl, withStatic_self]
        | none =>
          cases hr : (addRoute (Node.mk NodeType.Static segment [] [] [] none
              [] false 0) remaining h).2 with
          | ok q => simp [addStaticChild, hl, hr] at H
          | error e0 => simp [addStaticChild, hl, hr] at H ⊢

theorem sizeAccurate_leaf (t p h pn iw) :
    sizeAccurate (Node.mk t p [] [] [] h pn iw 0) = true := by
  simp [sizeAccurate_mk]

theorem countSub_leaf (t p h pn iw sz) :
    countSub (Node.mk t p [] [] [] h pn iw sz) =
      (match h with | some _ => 1 | none => 0) := by
  simp [countSub_mk]

/-- A successful `addRoute` returns the handle path of the terminal node,
which is exactly the registered segment sequence. -/
theorem addRoute_ok_path :
    ∀ (segs : List Seg) (node : Node) (h : Nat) (w : List Seg),
      (addRoute node segs h).2 = Except.ok w → w = segs := by
  intro segs
  induction segs with
  | nil =>
    intro node h w H
    cases hh : node.handler with
    | some h0 => simp [addRoute, hh] at H
    | none =>
      simp [addRoute, hh] at H
      exact H
  | cons segment remaining ih =>
    intro node h w H
    by_cases hstar : startsWithStar segment
    · simp only [addRoute, hstar, if_true] at H
      cases remaining with
      | cons a b => simp [addWildcardChild] at H
      | nil =>
        cases hl : lookupChild node.wildcard_children (dropSigil segment) with
        | some c => simp [addWildcardChild, hl] at H
        | none =>
          simp [addWildcardChild, hl] at H
          exact H.symm
    · by_cases hcolon : startsWithColon segment
      · simp only [addRoute, hstar, hcolon, if_true, if_false, Bool.false_eq_true] at H
        cases hf : findParamChild node.params_children (dropSigil segment) with
        | some child =>
          cases hr : (addRoute child remaining h).2 with
          | ok q =>
            simp [addParamChild, hf, hr] at H
            rw [← H, ih child h q hr]
          | error e0 => simp [addParamChild, hf, hr] at H
        | none =>
          cases hr : (addRoute (Node.mk NodeType.ParamNode segment [] [] [] none
              (dropSigil segment) false 0) remaining h).2 with
          | ok q =>
            cases hl : lookupChild node.params_children (dropSigil segment) with
            | some c => simp [addParamChild, hf, hr, hl] at H
            | none =>
              simp [addParamChild, hf, hr, hl] at H
              rw [← H, ih _ h q hr]
          | error e0 => simp [addParamChild, hf, hr] at H
      · simp only [addRoute, hstar, hcolon, if_false, Bool.false_eq_true] at H
        cases hl : lookupChild node.static_children segment with
        | some child =>
          cases hr : (addRoute child remaining h).2 with
          | ok q =>
            simp [addStaticChild, hl, hr] at H
            rw [← H, ih child h q hr]
          | error e0 => simp [addStaticChild, hl, hr] at H
        | none =>
          cases hr : (addRoute (Node.mk NodeType.Static segment [] [] [] none
              [] false 0) remaining h).2 with
          | ok q =>
            simp [addStaticChild, hl, hr] at H
            rw [← H, ih _ h q hr]
          | error e0 => simp [addStaticChild, hl, hr] at H

/-- A successful `addRoute` keeps every node's size accurate and raises the
subtree's handler count by exactly one. -/
theorem addRoute_ok_size :
    ∀ (segs : List Seg) (node : Node) (h : Nat) (w : List Seg),
      (addRoute node segs h).2 = Except.ok w → sizeAccurate node = true →
      sizeAccurate (addRoute node segs h).1 = true ∧
        countSub (addRoute node segs h).1 = countSub node + 1 := by
  intro segs
  induction segs with
  | nil =>
    intro node h w H acc
    obtain ⟨t, p, sc, pc, wc, hd, pn, iw, sz⟩ := node
    cases hd with
    | some h0 => simp [addRoute] at H
    | none =>
      simp [addRoute]
      constructor
      · rw [sizeAccurate_mk] at acc ⊢
        exact acc
      · rw [countSub_mk, countSub_mk]
        simp
        omega
  | cons segment remaining ih =>
    intro node h w H acc
    obtain ⟨t, p, sc, pc, wc, hd, pn, iw, sz⟩ := node
    rw [sizeAccurate_mk] at acc
    simp only [Bool.and_eq_true, decide_eq_true_eq] at acc
    obtain ⟨⟨⟨hsz, hasc⟩, hapc⟩, hawc⟩ := acc
    by_cases hstar : startsWithStar segment
    · simp only [addRoute, hstar, if_true] at H ⊢
      cases remaining with
      | cons a b => simp [addWildcardChild] at H
      | nil =>
        cases hl : lookupChild wc (dropSigil segment) with
        | some c => simp [addWildcardChild, hl] at H
        | none =>
          simp only [addWildcardChild, hl, wildcard_children_mk, withWildcards_mk] at H ⊢
          rw [setChild_of_lookup_none hl]
          simp only [incSize_mk]
          have hcw : countSubL (wc ++ [(dropSigil segment,
              Node.mk NodeType.Wildcard segment [] [] [] (some h) (dropSigil segment) true 0)]) =
              countSubL wc + 1 := by
            rw [countSubL_append]
            simp [countSub_leaf]
          constructor
          · rw [sizeAccurate_mk]
            simp only [Bool.and_eq_true, decide_eq_true_eq]
            refine ⟨⟨⟨?_, hasc⟩, hapc⟩, ?_⟩
            · rw [hcw, hsz, Nat.mod_add_mod]
              congr 1 <;> omega
            · rw [sizeAccurateL_append]
              simp [hawc, sizeAccurate_leaf]
          · rw [countSub_mk, countSub_mk, hcw]
            omega
    · by_cases hcolon : startsWithColon segment
      · simp only [addRoute, hstar, hcolon, if_true, if_false, Bool.false_eq_true] at H ⊢
        cases hf : findParamChild pc (dropSigil segment) with
        | some child =>
          cases hr : (addRoute child remaining h).2 with
          | error e0 => simp [addParamChild, hf, hr] at H
          | ok q =>
            have hchild : sizeAccurate child = true := sizeAccurateL_find hapc hf
            obtain ⟨ih1, ih2⟩ := ih child h q hr hchild
            simp only [addParamChild, hf, params_children_mk, withParams_mk, hr,
              prefixOk_ok] at H ⊢
            simp only [incSize_mk]
            have hcp := countSubL_setParamChild hf (addRoute child remaining h).1
            constructor
            · rw [sizeAccurate_mk]
              simp only [Bool.and_eq_true, decide_eq_true_eq]
              refine ⟨⟨⟨?_, hasc⟩, sizeAccurateL_setParamChild hapc ih1⟩, hawc⟩
              rw [hsz, Nat.mod_add_mod]
              congr 1 <;> omega
            · rw [countSub_mk, countSub_mk]
              omega
        | none =>
          cases hr : (addRoute (Node.mk NodeType.ParamNode segment [] [] [] none
              (dropSigil segment) false 0) remaining h).2 with
          | error e0 => simp [addParamChild, hf, hr] at H
          | ok q =>
            cases hl : lookupChild pc (dropSigil segment) with
            | some c => simp [addParamChild, hf, hr, hl] at H
            | none =>
              have hchild : sizeAccurate (Node.mk NodeType.ParamNode segment [] [] [] none
                  (dropSigil segment) false 0) = true := sizeAccurate_leaf _ _ _ _ _
              obtain ⟨ih1, ih2⟩ := ih _ h q hr hchild
              rw [countSub_leaf] at ih2
              simp only [addParamChild, hf, params_children_mk, withParams_mk, hr, hl,
                lookupChild] at H ⊢
              rw [setChild_of_lookup_none hl]
              simp only [incSize_mk]
              have hcp : countSubL (pc ++ [(dropSigil segment,
                  (addRoute (Node.mk NodeType.ParamNode segment [] [] [] none
                    (dropSigil segment) false 0) remaining h).1)]) = countSubL pc + 1 := by
                rw [countSubL_append]
                simp [ih2]
              constructor
              · rw [sizeAccurate_mk]
                simp only [Bool.and_eq_true, decide_eq_true_eq]
                refine ⟨⟨⟨?_, hasc⟩, ?_⟩, hawc⟩
                · rw [hcp, hsz, Nat.mod_add_mod]
                  congr 1 <;> omega
                · rw [sizeAccurateL_append]
                  simp [hapc, ih1]
              · rw [countSub_mk, countSub_mk, hcp]
                omega
      · simp only [addRoute, hstar, hcolon, if_false, Bool.false_eq_true] at H ⊢
        cases hl : lookupChild sc segment with
        | some child =>
          cases hr : (addRoute child remaining h).2 with
          | error e0 => simp [addStaticChild, hl, hr] at H
          | ok q =>
            have hchild : sizeAccurate child = true := sizeAccurateL_lookup hasc hl
            obtain ⟨ih1, ih2⟩ := ih child h q hr hchild
            simp only [addStaticChild, hl, static_children_mk, withStatic_mk, hr,
              prefixOk_ok] at H ⊢
            simp only [incSize_mk]
            have hcp := countSubL_setChild hl (addRoute child remaining h).1
            constructor
            · rw [sizeAccurate_mk]
              simp only [Bool.and_eq_true, decide_eq_true_eq]
              refine ⟨⟨⟨?_, sizeAccurateL_setChild hasc ih1⟩, hapc⟩, hawc⟩
              rw [hsz, Nat.mod_add_mod]
              congr 1 <;> omega
            · rw [countSub_mk, countSub_mk]
              omega
        | none =>
          cases hr : (addRoute (Node.mk NodeType.Static segment [] [] [] none
              [] false 0) remaining h).2 with
          | error e0 => simp [addStaticChild, hl, hr] at H
          | ok q =>
            have hchild : sizeAccurate (Node.mk NodeType.Static segment [] [] [] none
                [] false 0) = true := sizeAccurate_leaf _ _ _ _ _
            obtain ⟨ih1, ih2⟩ := ih _ h q hr hchild
            rw [countSub_leaf] at ih2
            simp only [addStaticChild, hl, static_children_mk, withStatic_mk, hr] at H ⊢
            rw [setChild_of_lookup_none hl]
            simp only [incSize_mk]
            have hcp : countSubL (sc ++ [(segment,
                (addRoute (Node.mk NodeType.Static segment [] [] [] none
                  [] false 0) remaining h).1)]) = countSubL sc + 1 := by
              rw [countSubL_append]
              simp [ih2]
            constructor
            · rw [sizeAccurate_mk]
              simp only [Bool.and_eq_true, decide_eq_true_eq]
              refine ⟨⟨⟨?_, ?_⟩, hapc⟩, hawc⟩
              · rw [hcp, hsz, Nat.mod_add_mod]
                congr 1 <;> omega
              · rw [sizeAccurateL_append]
                simp [hasc, ih1]
            · rw [countSub_mk, countSub_mk, hcp]
              omega

/-- Re-adding an already registered path fails with the duplicate error and
leaves the tree untouched. -/
theorem addRoute_again :
    ∀ (segs : List Seg) (node : Node) (h1 h2 : Nat) (n' : Node) (w : List Seg),
      addRoute node segs h1 = (n', Except.ok w) →
      addRoute n' segs h2 = (n', Except.error "handler already exists for this path") := by
  intro segs
  induction segs with
  | nil =>
    intro node h1 h2 n' w H
    cases hh : node.handler with
    | some h0 => simp [addRoute, hh] at H
    | none =>
      obtain ⟨t, p, sc, pc, wc, hd, pn, iw, sz⟩ := node
      simp only [handler_mk] at hh
      subst hh
      simp only [addRoute, handler_mk, withHandler_mk] at H
      injection H with H1 H2
      rw [← H1]
      simp [addRoute]
  | cons segment remaining ih =>
    intro node h1 h2 n' w H
    obtain ⟨t, p, sc, pc, wc, hd, pn, iw, sz⟩ := node
    by_cases hstar : startsWithStar segment
    · simp only [addRoute, hstar, if_true] at H ⊢
      cases remaining with
      | cons a b => simp [addWildcardChild] at H
      | nil =>
        cases hl : lookupChild wc (dropSigil segment) with
        | some c => simp [addWildcardChild, hl] at H
        | none =>
          simp only [addWildcardChild, hl, wildcard_children_mk, withWildcards_mk,
            incSize_mk] at H ⊢
          injection H with H1 H2
          rw [← H1]
          simp [addWildcardChild, lookupChild_setChild_self]
    · by_cases hcolon : startsWithColon segment
      · simp only [addRoute, hstar, hcolon, if_true, if_false, Bool.false_eq_true] at H ⊢
        cases hf : findParamChild pc (dropSigil segment) with
        | some child =>
          cases hr : (addRoute child remaining h1).2 with
          | error e0 => simp [addParamChild, hf, hr] at H
          | ok q =>
            have hpair : addRoute child remaining h1 =
                ((addRoute child remaining h1).1, Except.ok q) := by rw [← hr]
            have hre := ih child h1 h2 (addRoute child remaining h1).1 q hpair
            have hpn : ((addRoute child remaining h1).1).paramName = dropSigil segment := by
              rw [(addRoute_core child remaining h1).2]
              exact findParamChild_paramName hf
            simp only [addParamChild, hf, params_children_mk, withParams_mk, hr,
              prefixOk_ok, incSize_mk] at H ⊢
            injection H with H1 H2
            rw [← H1]
            have hfind := findParamChild_setParamChild hf hpn
            simp only [addParamChild, params_children_mk, hfind, hre, prefixOk_error,
              setParamChild_of_find_self hfind, withParams_mk]
        | none =>
          cases hr : (addRoute (Node.mk NodeType.ParamNode segment [] [] [] none
              (dropSigil segment) false 0) remaining h1).2 with
          | error e0 => simp [addParamChild, hf, hr] at H
          | ok q =>
            cases hl : lookupChild pc (dropSigil segment) with
            | some c => simp [addParamChild, hf, hr, hl] at H
            | none =>
              have hpair : addRoute (Node.mk NodeType.ParamNode segment [] [] [] none
                  (dropSigil segment) false 0) remaining h1 =
                  ((addRoute (Node.mk NodeType.ParamNode segment [] [] [] none
                    (dropSigil segment) false 0) remaining h1).1, Except.ok q) := by rw [← hr]
              have hre := ih _ h1 h2 _ q hpair
              have hpn : ((addRoute (Node.mk NodeType.ParamNode segment [] [] [] none
                  (dropSigil segment) false 0) remaining h1).1).paramName =
                  dropSigil segment := by
                rw [(addRoute_core _ remaining h1).2]
                simp
              simp only [addParamChild, hf, params_children_mk, hr, hl, withParams_mk,
                incSize_mk] at H ⊢
              injection H with H1 H2
              rw [← H1]
              rw [setChild_of_lookup_none hl]
              have hfind := findParamChild_append_of_none hf (k := dropSigil segment) hpn
              simp only [addParamChild, params_children_mk, hfind, hre, prefixOk_error,
                setParamChild_of_find_self hfind, withParams_mk]
      · simp only [addRoute, hstar, hcolon, if_false, Bool.false_eq_true] at H ⊢
        cases hl : lookupChild sc segment with
        | some child =>
          cases hr : (addRoute child remaining h1).2 with
          | error e0 => simp [addStaticChild, hl, hr] at H
          | ok q =>
            have hpair : addRoute child remaining h1 =
                ((addRoute child remaining h1).1, Except.ok q) := by rw [← hr]
            have hre := ih child h1 h2 (addRoute child remaining h1).1 q hpair
            simp only [addStaticChild, hl, static_children_mk, withStatic_mk, hr,
              prefixOk_ok, incSize_mk] at H ⊢
            injection H with H1 H2
            rw [← H1]
            have hlook := lookupChild_setChild_self sc segment (addRoute child remaining h1).1
            simp only [addStaticChild, static_children_mk, hlook, hre, prefixOk_error,
              setChild_of_lookup_some hlook, withStatic_mk]
        | none =>
          cases hr : (addRoute (Node.mk NodeType.Static segment [] [] [] none
              [] false 0) remaining h1).2 with
          | error e0 => simp [addStaticChild, hl, hr] at H
          | ok q =>
            have hpair : addRoute (Node.mk NodeType.Static segment [] [] [] none
                [] false 0) remaining h1 =
                ((addRoute (Node.mk NodeType.Static segment [] [] [] none
                  [] false 0) remaining h1).1, Except.ok q) := by rw [← hr]
            have hre := ih _ h1 h2 _ q hpair
            simp only [addStaticChild, hl, static_children_mk, hr, withStatic_mk,
              incSize_mk] at H ⊢
            injection H with H1 H2
            rw [← H1]
            rw [setChild_of_lookup_none hl]
            have hlook := lookupChild_append_of_none hl
              ((addRoute (Node.mk NodeType.Static segment [] [] [] none
                [] false 0) remaining h1).1)
            simp only [addStaticChild, static_children_mk, hlook, hre, prefixOk_error,
              setChild_of_lookup_some hlook, withStatic_mk]

@[simp] theorem wildTerminalL_nil : wildTerminalL [] = true := by rw [wildTerminalL]

@[simp] theorem wildTerminalL_cons (k : Seg) (c : Node) (rest : List (Seg × Node)) :
    wildTerminalL ((k, c) :: rest) = (wildTerminal c && wildTerminalL rest) := by
  rw [wildTerminalL]

theorem wildTerminal_mk (t p sc pc wc h pn w sz) :
    wildTerminal (Node.mk t p sc pc wc h pn w sz) =
      (wildLeaves wc && wildTerminalL sc && wildTerminalL pc) := by rw [wildTerminal]

@[simp] theorem noChildren_leaf (t p h pn iw sz) :
    noChildren (Node.mk t p [] [] [] h pn iw sz) = true := by simp [noChildren]

@[simp] theorem wildTerminal_leaf (t p h pn iw sz) :
    wildTerminal (Node.mk t p [] [] [] h pn iw sz) = true := by
  simp [wildTerminal_mk, wildLeaves]

theorem wildLeaves_setChild {l : List (Seg × Node)} {k : Seg}
    (hl : wildLeaves l = true) {v : Node} (hv : noChildren v = true) :
    wildLeaves (setChild l k v) = true := by
  induction l with
  | nil => simp [setChild, wildLeaves, hv]
  | cons kv rest ih =>
    obtain ⟨k2, c2⟩ := kv
    simp [wildLeaves] at hl
    by_cases hk : k2 = k
    · simp [setChild, hk, wildLeaves, hv, hl.2]
    · simp [setChild, hk, wildLeaves, hl.1, ih hl.2]

theorem wildTerminalL_lookup {l : List (Seg × Node)} {k : Seg} {c : Node}
    (hl : wildTerminalL l = true) (h : lookupChild l k = some c) :
    wildTerminal c = true := by
  induction l with
  | nil => simp [lookupChild] at h
  | cons kv rest ih =>
    obtain ⟨k2, c2⟩ := kv
    simp at hl
    by_cases hk : k2 = k
    · subst hk; simp [lookupChild] at h; subst h; exact hl.1
    · simp [lookupChild, hk] at h
      exact ih hl.2 h

theorem wildTerminalL_find {l : List (Seg × Node)} {p : Seg} {c : Node}
    (hl : wildTerminalL l = true) (h : findParamChild l p = some c) :
    wildTerminal c = true := by
  induction l with
  | nil => simp [findParamChild] at h
  | cons kv rest ih =>
    obtain ⟨k2, c2⟩ := kv
    simp at hl
    by_cases hp : c2.paramName = p
    · simp [findParamChild, hp] at h; subst h; exact hl.1
    · simp [findParamChild, hp] at h
      exact ih hl.2 h

theorem wildTerminalL_setChild {l : List (Seg × Node)} {k : Seg}
    (hl : wildTerminalL l = true) {v : Node} (hv : wildTerminal v = true) :
    wildTerminalL (setChild l k v) = true := by
  induction l with
  | nil => simp [setChild, hv]
  | cons kv rest ih =>
    obtain ⟨k2, c2⟩ := kv
    simp at hl
    by_cases hk : k2 = k
    · simp [setChild, hk, hv, hl.2]
    · simp [setChild, hk, hl.1, ih hl.2]

theorem wildTerminalL_setParamChild {l : List (Seg × Node)} {p : Seg}
    (hl : wildTerminalL l = true) {v : Node} (hv : wildTerminal v = true) :
    wildTerminalL (setParamChild l p v) = true := by
  induction l with
  | nil => simp [setParamChild]
  | cons kv rest ih =>
    obtain ⟨k2, c2⟩ := kv
    simp at hl
    by_cases hp : c2.paramName = p
    · simp [setParamChild, hp, hv, hl.2]
    · simp [setParamChild, hp, hl.1, ih hl.2]

/-- `addRoute` keeps every wildcard node of the tree a leaf: it only ever
creates wildcard children with empty child collections and never descends
into one. -/
theorem addRoute_wildTerminal :
    ∀ (segs : List Seg) (node : Node) (h : Nat), wildTerminal node = true →
      wildTerminal (addRoute node segs h).1 = true := by
  intro segs
  induction segs with
  | nil =>
    intro node h wt
    obtain ⟨t, p, sc, pc, wc, hd, pn, iw, sz⟩ := node
    cases hd with
    | some h0 => simpa [addRoute] using wt
    | none =>
      rw [wildTerminal_mk] at wt
      simp [addRoute, wildTerminal_mk, wt]
  | cons segment remaining ih =>
    intro node h wt
    obtain ⟨t, p, sc, pc, wc, hd, pn, iw, sz⟩ := node
    rw [wildTerminal_mk] at wt
    simp only [Bool.and_eq_true] at wt
    obtain ⟨⟨hwl, hwsc⟩, hwpc⟩ := wt
    by_cases hstar : startsWithStar segment
    · simp only [addRoute, hstar, if_true]
      cases remaining with
      | cons a b => simp [addWildcardChild, wildTerminal_mk, hwl, hwsc, hwpc]
      | nil =>
        cases hl : lookupChild wc (dropSigil segment) with
        | some c => simp [addWildcardChild, hl, wildTerminal_mk, hwl, hwsc, hwpc]
        | none =>
          simp only [addWildcardChild, hl, wildcard_children_mk, withWildcards_mk,
            incSize_mk]
          rw [wildTerminal_mk]
          simp [hwsc, hwpc, wildLeaves_setChild hwl (noChildren_leaf _ _ _ _ _ _)]
    · by_cases hcolon : startsWithColon segment
      · simp only [addRoute, hstar, hcolon, if_true, if_false, Bool.false_eq_true]
        cases hf : findParamChild pc (dropSigil segment) with
        | some child =>
          have hwc : wildTerminal child = true := wildTerminalL_find hwpc hf
          have hr1 := ih child h hwc
          cases hr : (addRoute child remaining h).2 with
          | ok q =>
            simp only [addParamChild, hf, params_children_mk, withParams_mk, hr,
              prefixOk_ok, incSize_mk]
            rw [wildTerminal_mk]
            simp [hwl, hwsc, wildTerminalL_setParamChild hwpc hr1]
          | error e0 =>
            simp only [addParamChild, hf, params_children_mk, withParams_mk, hr,
              prefixOk_error]
            rw [wildTerminal_mk]
            simp [hwl, hwsc, wildTerminalL_setParamChild hwpc hr1]
        | none =>
          have hr1 := ih (Node.mk NodeType.ParamNode segment [] [] [] none
            (dropSigil segment) false 0) h (wildTerminal_leaf _ _ _ _ _ _)
          cases hr : (addRoute (Node.mk NodeType.ParamNode segment [] [] [] none
              (dropSigil segment) false 0) remaining h).2 with
          | error e0 =>
            simp [addParamChild, hf, hr, wildTerminal_mk, hwl, hwsc, hwpc]
          | ok q =>
            cases hl : lookupChild pc (dropSigil segment) with
            | some c => simp [addParamChild, hf, hr, hl, wildTerminal_mk, hwl, hwsc, hwpc]
            | none =>
              simp only [addParamChild, hf, params_children_mk, hr, hl, withParams_mk,
                incSize_mk]
              rw [wildTerminal_mk]
              simp [hwl, hwsc, wildTerminalL_setChild hwpc hr1]
      · simp only [addRoute, hstar, hcolon, if_false, Bool.false_eq_true]
        cases hl : lookupChild sc segment with
        | some child =>
          have hwc : wildTerminal child = true := wildTerminalL_lookup hwsc hl
          have hr1 := ih child h hwc
          cases hr : (addRoute child remaining h).2 with
          | ok q =>
            simp only [addStaticChild, hl, static_children_mk, withStatic_mk, hr,
              prefixOk_ok, incSize_mk]
            rw [wildTerminal_mk]
            simp [hwl, hwpc, wildTerminalL_setChild hwsc hr1]
          | error e0 =>
            simp only [addStaticChild, hl, static_children_mk, withStatic_mk, hr,
              prefixOk_error]
            rw [wildTerminal_mk]
            simp [hwl, hwpc, wildTerminalL_setChild hwsc hr1]
        | none =>
          have hr1 := ih (Node.mk NodeType.Static segment [] [] [] none
            [] false 0) h (wildTerminal_leaf _ _ _ _ _ _)
          cases hr : (addRoute (Node.mk NodeType.Static segment [] [] [] none
              [] false 0) remaining h).2 with
          | error e0 =>
            simp [addStaticChild, hl, hr, wildTerminal_mk, hwl, hwsc, hwpc]
          | ok q =>
            simp only [addStaticChild, hl, static_children_mk, hr, withStatic_mk,
              incSize_mk]
            rw [wildTerminal_mk]
            simp [hwl, hwpc, wildTerminalL_setChild hwsc hr1]

theorem keysOK_mk (t p sc pc wc h pn w sz) :
    keysOK (Node.mk t p sc pc wc h pn w sz) =
      (keysOKStatic sc && keysOKParam pc && keysOKWild wc) := by rw [keysOK]

@[simp] theorem keysOKStatic_nil : keysOKStatic [] = true := by rw [keysOKStatic]

@[simp] theorem keysOKStatic_cons (k : Seg) (c : Node) (rest : List (Seg × Node)) :
    keysOKStatic ((k, c) :: rest) =
      (decide (c.path = k) && keysOK c && keysOKStatic rest) := by rw [keysOKStatic]

@[simp] theorem keysOKParam_nil : keysOKParam [] = true := by rw [keysOKParam]

@[simp] theorem keysOKParam_cons (k : Seg) (c : Node) (rest : List (Seg × Node)) :
    keysOKParam ((k, c) :: rest) =
      (decide (c.paramName = k ∧ c.path = ':' :: k) && keysOK c && keysOKParam rest) := by
  rw [keysOKParam]

@[simp] theorem keysOKWild_nil : keysOKWild [] = true := by rw [keysOKWild]

@[simp] theorem keysOKWild_cons (k : Seg) (c : Node) (rest : List (Seg × Node)) :
    keysOKWild ((k, c) :: rest) =
      (decide (c.paramName = k ∧ c.path = '*' :: k) && keysOK c && keysOKWild rest) := by
  rw [keysOKWild]

@[simp] theorem keysOK_leaf (t p h pn iw sz) :
    keysOK (Node.mk t p [] [] [] h pn iw sz) = true := by
  simp [keysOK_mk]

theorem keysOKStatic_lookup {l : List (Seg × Node)} {k : Seg} {c : Node}
    (hl : keysOKStatic l = true) (h : lookupChild l k = some c) :
    c.path = k ∧ keysOK c = true := by
  induction l with
  | nil => simp [lookupChild] at h
  | cons kv rest ih =>
    obtain ⟨k2, c2⟩ := kv
    simp at hl
    by_cases hk : k2 = k
    · subst hk; simp [lookupChild] at h; subst h
      exact ⟨hl.1.1, hl.1.2⟩
    · simp [lookupChild, hk] at h
      exact ih hl.2 h

theorem keysOKParam_find {l : List (Seg × Node)} {p : Seg} {c : Node}
    (hl : keysOKParam l = true) (h : findParamChild l p = some c) :
    c.path = ':' :: p ∧ keysOK c = true := by
  induction l with
  | nil => simp [findParamChild] at h
  | cons kv rest ih =>
    obtain ⟨k2, c2⟩ := kv
    simp at hl
    by_cases hp : c2.paramName = p
    · simp [findParamChild, hp] at h
      subst h
      obtain ⟨⟨⟨hn2, hp2⟩, hok2⟩, _⟩ := hl
      have hk : k2 = p := by rw [← hn2, hp]
      subst hk
      exact ⟨hp2, hok2⟩
    · simp [findParamChild, hp] at h
      exact ih hl.2 h

theorem keysOKWild_lookup {l : List (Seg × Node)} {k : Seg} {c : Node}
    (hl : keysOKWild l = true) (h : lookupChild l k = some c) :
    c.paramName = k ∧ c.path = '*' :: k ∧ keysOK c = true := by
  induction l with
  | nil => simp [lookupChild] at h
  | cons kv rest ih =>
    obtain ⟨k2, c2⟩ := kv
    simp at hl
    by_cases hk : k2 = k
    · subst hk; simp [lookupChild] at h; subst h
      exact ⟨hl.1.1.1, hl.1.1.2, hl.1.2⟩
    · simp [lookupChild, hk] at h
      exact ih hl.2 h

theorem keysOKStatic_setChild {l : List (Seg × Node)} {k : Seg}
    (hl : keysOKStatic l = true) {v : Node} (hp : v.path = k) (hv : keysOK v = true) :
    keysOKStatic (setChild l k v) = true := by
  induction l with
  | nil => simp [setChild, hp, hv]
  | cons kv rest ih =>
    obtain ⟨k2, c2⟩ := kv
    simp at hl
    by_cases hk : k2 = k
    · simp [setChild, hk, hp, hv, hl.2]
    · simp [setChild, hk, hl.1.1, hl.1.2, hl.2, ih hl.2]

theorem keysOKParam_setChild {l : List (Seg × Node)} {p : Seg}
    (hl : keysOKParam l = true) {v : Node} (hn : v.paramName = p)
    (hp : v.path = ':' :: p) (hv : keysOK v = true) :
    keysOKParam (setChild l p v) = true := by
  induction l with
  | nil => simp [setChild, hn, hp, hv]
  | cons kv rest ih =>
    obtain ⟨k2, c2⟩ := kv
    simp at hl
    by_cases hk : k2 = p
    · simp [setChild, hk, hn, hp, hv, hl.2]
    · simp [setChild, hk, hl.1.1.1, hl.1.1.2, hl.1.2, ih hl.2]

theorem keysOKParam_setParamChild {l : List (Seg × Node)} {p : Seg}
    (hl : keysOKParam l = true) {v : Node} (hn : v.paramName = p)
    (hp : v.path = ':' :: p) (hv : keysOK v = true) :
    keysOKParam (setParamChild l p v) = true := by
  induction l with
  | nil => simp [setParamChild]
  | cons kv rest ih =>
    obtain ⟨k2, c2⟩ := kv
    simp at hl
    by_cases hq : c2.paramName = p
    · have hk : k2 = p := by rw [← hl.1.1.1, hq]
      subst hk
      simp [setParamChild, hq, hn, hp, hv, hl.2]
    · simp only [setParamChild, if_neg hq]
      simp [hl.1.1.1, hl.1.1.2, hl.1.2, ih hl.2]

theorem keysOKWild_setChild {l : List (Seg × Node)} {k : Seg}
    (hl : keysOKWild l = true) {v : Node} (hn : v.paramName = k)
    (hp : v.path = '*' :: k) (hv : keysOK v = true) :
    keysOKWild (setChild l k v) = true := by
  induction l with
  | nil => simp [setChild, hn, hp, hv]
  | cons kv rest ih =>
    obtain ⟨k2, c2⟩ := kv
    simp at hl
    by_cases hk : k2 = k
    · simp [setChild, hk, hn, hp, hv, hl.2]
    · simp [setChild, hk, hl.1.1.1, hl.1.1.2, hl.1.2, ih hl.2]

/-- `addRoute` keeps the child maps key-coherent everywhere: static keys are
the child's stored text, param and wildcard keys are the child's parameter
name and the stored text is the sigil plus that key. -/
theorem addRoute_keysOK :
    ∀ (segs : List Seg) (node : Node) (h : Nat), keysOK node = true →
      keysOK (addRoute node segs h).1 = true := by
  intro segs
  induction segs with
  | nil =>
    intro node h K
    obtain ⟨t, p, sc, pc, wc, hd, pn, iw, sz⟩ := node
    cases hd with
    | some h0 => simpa [addRoute] using K
    | none =>
      rw [keysOK_mk] at K
      simp [addRoute, keysOK_mk, K]
  | cons segment remaining ih =>
    intro node h K
    obtain ⟨t, p, sc, pc, wc, hd, pn, iw, sz⟩ := node
    rw [keysOK_mk] at K
    simp only [Bool.and_eq_true] at K
    obtain ⟨⟨hks, hkp⟩, hkw⟩ := K
    by_cases hstar : startsWithStar segment
    · simp only [addRoute, hstar, if_true]
      cases remaining with
      | cons a b => simp [addWildcardChild, keysOK_mk, hks, hkp, hkw]
      | nil =>
        cases hl : lookupChild wc (dropSigil segment) with
        | some c => simp [addWildcardChild, hl, keysOK_mk, hks, hkp, hkw]
        | none =>
          simp only [addWildcardChild, hl, wildcard_children_mk, withWildcards_mk,
            incSize_mk]
          rw [keysOK_mk]
          have hseg := startsWithStar_eq hstar
          refine Bool.and_eq_true .. ▸ ⟨Bool.and_eq_true .. ▸ ⟨hks, hkp⟩, ?_⟩
          exact keysOKWild_setChild hkw (by simp) (by simp [← hseg]) (keysOK_leaf _ _ _ _ _ _)
    · by_cases hcolon : startsWithColon segment
      · simp only [addRoute, hstar, hcolon, if_true, if_false, Bool.false_eq_true]
        cases hf : findParamChild pc (dropSigil segment) with
        | some child =>
          obtain ⟨hcpath, hcok⟩ := keysOKParam_find hkp hf
          have hcname := findParamChild_paramName hf
          have hr1 := ih child h hcok
          have hcore := addRoute_core child remaining h
          have hzn : ((addRoute child remaining h).1).paramName = dropSigil segment := by
            rw [hcore.2, hcname]
          have hzp : ((addRoute child remaining h).1).path = ':' :: dropSigil segment := by
            rw [hcore.1, hcpath]
          have hset := keysOKParam_setParamChild hkp hzn hzp hr1
          cases hr : (addRoute child remaining h).2 with
          | ok q =>
            simp only [addParamChild, hf, params_children_mk, withParams_mk, hr,
              prefixOk_ok, incSize_mk]
            rw [keysOK_mk]
            simp [hks, hkw, hset]
          | error e0 =>
            simp only [addParamChild, hf, params_children_mk, withParams_mk, hr,
              prefixOk_error]
            rw [keysOK_mk]
            simp [hks, hkw, hset]
        | none =>
          have hseg := startsWithColon_eq hcolon
          have hr1 := ih (Node.mk NodeType.ParamNode segment [] [] [] none
            (dropSigil segment) false 0) h (keysOK_leaf _ _ _ _ _ _)
          have hcore := addRoute_core (Node.mk NodeType.ParamNode segment [] [] [] none
            (dropSigil segment) false 0) remaining h
          cases hr : (addRoute (Node.mk NodeType.ParamNode segment [] [] [] none
              (dropSigil segment) false 0) remaining h).2 with
          | error e0 =>
            simp [addParamChild, hf, hr, keysOK_mk, hks, hkp, hkw]
          | ok q =>
            cases hl : lookupChild pc (dropSigil segment) with
            | some c => simp [addParamChild, hf, hr, hl, keysOK_mk, hks, hkp, hkw]
            | none =>
              simp only [addParamChild, hf, params_children_mk, hr, hl, withParams_mk,
                incSize_mk]
              rw [keysOK_mk]
              have hzn : ((addRoute (Node.mk NodeType.ParamNode segment [] [] [] none
                  (dropSigil segment) false 0) remaining h).1).paramName =
                  dropSigil segment := by
                rw [hcore.2]; simp
              have hzp : ((addRoute (Node.mk NodeType.ParamNode segment [] [] [] none
                  (dropSigil segment) false 0) remaining h).1).path =
                  ':' :: dropSigil segment := by
                rw [hcore.1]; simp [← hseg]
              simp [hks, hkw, keysOKParam_setChild hkp hzn hzp hr1]
      · simp only [addRoute, hstar, hcolon, if_false, Bool.false_eq_true]
        cases hl : lookupChild sc segment with
        | some child =>
          obtain ⟨hcpath, hcok⟩ := keysOKStatic_lookup hks hl
          have hr1 := ih child h hcok
          have hcore := addRoute_core child remaining h
          have hzp : ((addRoute child remaining h).1).path = segment := by
            rw [hcore.1, hcpath]
          have hset := keysOKStatic_setChild hks hzp hr1
          cases hr : (addRoute child remaining h).2 with
          | ok q =>
            simp only [addStaticChild, hl, static_children_mk, withStatic_mk, hr,
              prefixOk_ok, incSize_mk]
            rw [keysOK_mk]
            simp [hkp, hkw, hset]
          | error e0 =>
            simp only [addStaticChild, hl, static_children_mk, withStatic_mk, hr,
              prefixOk_error]
            rw [keysOK_mk]
            simp [hkp, hkw, hset]
        | none =>
          have hr1 := ih (Node.mk NodeType.Static segment [] [] [] none
            [] false 0) h (keysOK_leaf _ _ _ _ _ _)
          have hcore := addRoute_core (Node.mk NodeType.Static segment [] [] [] none
            [] false 0) remaining h
          have hzp : ((addRoute (Node.mk NodeType.Static segment [] [] [] none
              [] false 0) remaining h).1).path = segment := by
            rw [hcore.1]; simp
          cases hr : (addRoute (Node.mk NodeType.Static segment [] [] [] none
              [] false 0) remaining h).2 with
          | error e0 =>
            simp [addStaticChild, hl, hr, keysOK_mk, hks, hkp, hkw]
          | ok q =>
            simp only [addStaticChild, hl, static_children_mk, hr, withStatic_mk,
              incSize_mk]
            rw [keysOK_mk]
            simp [hkp, hkw, keysOKStatic_setChild hks hzp hr1]

theorem childFor_keys {n : Node} (K : keysOK n = true) {s : Seg} {c : Node}
    (h : childFor n s = some c) : c.path = s ∧ keysOK c = true := by
  obtain ⟨t, p, sc, pc, wc, hd, pn, iw, sz⟩ := n
  rw [keysOK_mk] at K
  simp only [Bool.and_eq_true] at K
  obtain ⟨⟨hks, hkp⟩, hkw⟩ := K
  by_cases hstar : startsWithStar s
  · simp only [childFor, hstar, if_true, wildcard_children_mk] at h
    obtain ⟨hn2, hp2, hok⟩ := keysOKWild_lookup hkw h
    refine ⟨?_, hok⟩
    rw [hp2, ← startsWithStar_eq hstar]
  · by_cases hcolon : startsWithColon s
    · simp only [childFor, hstar, hcolon, if_true, if_false, Bool.false_eq_true,
        params_children_mk] at h
      obtain ⟨hp2, hok⟩ := keysOKParam_find hkp h
      refine ⟨?_, hok⟩
      rw [hp2, ← startsWithColon_eq hcolon]
    · simp only [childFor, hstar, hcolon, if_false, Bool.false_eq_true,
        static_children_mk] at h
      exact keysOKStatic_lookup hks h

theorem subNode_keysOK :
    ∀ (w : List Seg) (n : Node), keysOK n = true →
      ∀ m, subNode n w = some m → keysOK m = true := by
  intro w
  induction w with
  | nil =>
    intro n K m h
    simp [subNode] at h
    rw [← h]
    exact K
  | cons s rest ih =>
    intro n K m h
    simp only [subNode] at h
    cases hc : childFor n s with
    | none => rw [hc] at h; simp at h
    | some c =>
      rw [hc] at h
      exact ih c (childFor_keys K hc).2 m h

theorem subNode_snoc :
    ∀ (w : List Seg) (n : Node) (s : Seg),
      subNode n (w ++ [s]) =
        match subNode n w with
        | some m => childFor m s
        | none => none := by
  intro w
  induction w with
  | nil =>
    intro n s
    simp only [List.nil_append, subNode]
    cases childFor n s <;> simp [subNode]
  | cons a rest ih =>
    intro n s
    simp only [List.cons_append, subNode]
    cases hc : childFor n a with
    | none => simp
    | some c => simp [ih c s]

theorem pathNameAt_snoc {root : Node} (K : keysOK root = true) {w : List Seg} {s : Seg}
    (h : (subNode root (w ++ [s])).isSome = true) :
    pathNameAt root (w ++ [s]) = s := by
  cases hsub : subNode root (w ++ [s]) with
  | none => rw [hsub] at h; simp at h
  | some c =>
    have hsub2 := hsub
    rw [subNode_snoc] at hsub2
    cases hm : subNode root w with
    | none => rw [hm] at hsub2; simp at hsub2
    | some m =>
      rw [hm] at hsub2
      simp only at hsub2
      have hmk := subNode_keysOK w root K m hm
      have hp := (childFor_keys hmk hsub2).1
      simp [pathNameAt, hsub, hp]

theorem parentChain_ne {root : Node} {w : List Seg} (h : w ≠ []) :
    parentChain root w = pathNameAt root w :: parentChain root w.dropLast := by
  match w with
  | [] => exact absurd rfl h
  | a :: t => rw [parentChain]

/-- In a key-coherent tree, reconstructing a reachable node's path by the
parent walk returns exactly its access path. -/
theorem parentChain_reverse :
    ∀ (w : List Seg) (root : Node), keysOK root = true →
      (subNode root w).isSome = true → (parentChain root w).reverse = w := by
  intro w
  induction w using List.reverseRecOn with
  | nil => intro root K h; rw [parentChain]; rfl
  | append_singleton u s ih =>
    intro root K h
    have hu : (subNode root u).isSome = true := by
      cases hm : subNode root u with
      | some m => rfl
      | none =>
        rw [subNode_snoc, hm] at h
        simp at h
    rw [parentChain_ne (by simp), List.dropLast_concat]
    simp only [List.reverse_cons]
    rw [ih root K hu, pathNameAt_snoc K h]

/-- After a successful insertion, the registered chain exists in the tree and
its terminal node carries the new handler. -/
theorem addRoute_ok_subNode :
    ∀ (segs : List Seg) (node : Node) (h : Nat) (n' : Node) (w : List Seg),
      addRoute node segs h = (n', Except.ok w) →
      ∃ m, subNode n' segs = some m ∧ m.handler = some h := by
  intro segs
  induction segs with
  | nil =>
    intro node h n' w H
    cases hh : node.handler with
    | some h0 => simp [addRoute, hh] at H
    | none =>
      obtain ⟨t, p, sc, pc, wc, hd, pn, iw, sz⟩ := node
      simp only [handler_mk] at hh
      subst hh
      simp only [addRoute, handler_mk, withHandler_mk] at H
      injection H with H1 H2
      rw [← H1]
      exact ⟨Node.mk t p sc pc wc (some h) pn iw sz, rfl, rfl⟩
  | cons segment remaining ih =>
    intro node h n' w H
    obtain ⟨t, p, sc, pc, wc, hd, pn, iw, sz⟩ := node
    by_cases hstar : startsWithStar segment
    · simp only [addRoute, hstar, if_true] at H
      cases remaining with
      | cons a b => simp [addWildcardChild] at H
      | nil =>
        cases hl : lookupChild wc (dropSigil segment) with
        | some c => simp [addWildcardChild, hl] at H
        | none =>
          simp only [addWildcardChild, hl, wildcard_children_mk, withWildcards_mk,
            incSize_mk] at H
          injection H with H1 H2
          rw [← H1]
          refine ⟨Node.mk NodeType.Wildcard segment [] [] [] (some h)
            (dropSigil segment) true 0, ?_, rfl⟩
          simp [subNode, childFor, hstar, lookupChild_setChild_self]
    · by_cases hcolon : startsWithColon segment
      · simp only [addRoute, hstar, hcolon, if_true, if_false, Bool.false_eq_true] at H
        cases hf : findParamChild pc (dropSigil segment) with
        | some child =>
          cases hr : (addRoute child remaining h).2 with
          | error e0 => simp [addParamChild, hf, hr] at H
          | ok q =>
            have hpair : addRoute child remaining h =
                ((addRoute child remaining h).1, Except.ok q) := by rw [← hr]
            obtain ⟨m, hm1, hm2⟩ := ih child h _ q hpair
            have hpn : ((addRoute child remaining h).1).paramName = dropSigil segment := by
              rw [(addRoute_core child remaining h).2]
              exact findParamChild_paramName hf
            simp only [addParamChild, hf, params_children_mk, withParams_mk, hr,
              prefixOk_ok, incSize_mk] at H
            injection H with H1 H2
            rw [← H1]
            refine ⟨m, ?_, hm2⟩
            simp [subNode, childFor, hstar, hcolon,
              findParamChild_setParamChild hf hpn, hm1]
        | none =>
          cases hr : (addRoute (Node.mk NodeType.ParamNode segment [] [] [] none
              (dropSigil segment) false 0) remaining h).2 with
          | error e0 => simp [addParamChild, hf, hr] at H
          | ok q =>
            cases hl : lookupChild pc (dropSigil segment) with
            | some c => simp [addParamChild, hf, hr, hl] at H
            | none =>
              have hpair : addRoute (Node.mk NodeType.ParamNode segment [] [] [] none
                  (dropSigil segment) false 0) remaining h =
                  ((addRoute (Node.mk NodeType.ParamNode segment [] [] [] none
                    (dropSigil segment) false 0) remaining h).1, Except.ok q) := by
                rw [← hr]
              obtain ⟨m, hm1, hm2⟩ := ih _ h _ q hpair
              have hpn : ((addRoute (Node.mk NodeType.ParamNode segment [] [] [] none
                  (dropSigil segment) false 0) remaining h).1).paramName =
                  dropSigil segment := by
                rw [(addRoute_core _ remaining h).2]
                simp
              simp only [addParamChild, hf, params_children_mk, hr, hl, withParams_mk,
                incSize_mk] at H
              injection H with H1 H2
              rw [← H1]
              refine ⟨m, ?_, hm2⟩
              rw [setChild_of_lookup_none hl]
              simp [subNode, childFor, hstar, hcolon,
                findParamChild_append_of_none hf hpn, hm1]
      · simp only [addRoute, hstar, hcolon, if_false, Bool.false_eq_true] at H
        cases hl : lookupChild sc segment with
        | some child =>
          cases hr : (addRoute child remaining h).2 with
          | error e0 => simp [addStaticChild, hl, hr] at H
          | ok q =>
            have hpair : addRoute child remaining h =
                ((addRoute child remaining h).1, Except.ok q) := by rw [← hr]
            obtain ⟨m, hm1, hm2⟩ := ih child h _ q hpair
            simp only [addStaticChild, hl, static_children_mk, withStatic_mk, hr,
              prefixOk_ok, incSize_mk] at H
            injection H with H1 H2
            rw [← H1]
            refine ⟨m, ?_, hm2⟩
            simp [subNode, childFor, hstar, hcolon, lookupChild_setChild_self, hm1]
        | none =>
          cases hr : (addRoute (Node.mk NodeType.Static segment [] [] [] none
              [] false 0) remaining h).2 with
          | error e0 => simp [addStaticChild, hl, hr] at H
          | ok q =>
            have hpair : addRoute (Node.mk NodeType.Static segment [] [] [] none
                [] false 0) remaining h =
                ((addRoute (Node.mk NodeType.Static segment [] [] [] none
                  [] false 0) remaining h).1, Except.ok q) := by rw [← hr]
            obtain ⟨m, hm1, hm2⟩ := ih _ h _ q hpair
            simp only [addStaticChild, hl, static_children_mk, hr, withStatic_mk,
              incSize_mk] at H
            injection H with H1 H2
            rw [← H1]
            refine ⟨m, ?_, hm2⟩
            rw [setChild_of_lookup_none hl]
            simp [subNode, childFor, hstar, hcolon, lookupChild_append_of_none hl, hm1]

/-- Registering a single route whose last segment is a parameter under a bare
node succeeds, and every lookup replacing the parameter position by any
segment `v` returns exactly one route binding the parameter name to the
one-element list `[v]`. -/
theorem addRoute_param_single :
    ∀ (p : List Seg) (node : Node) (name : Seg) (h : Nat),
      Bare node → p.all isStaticSeg = true →
      (addRoute node (p ++ [':' :: name]) h).2 = Except.ok (p ++ [':' :: name]) ∧
      ∀ (v : Seg) (params0 : Params),
        getValue (addRoute node (p ++ [':' :: name]) h).1 (p ++ [v]) params0 =
          [{ Handler := h, Params := params0 ++ [(name, [v])] }] := by
  intro p
  induction p with
  | nil =>
    intro node name h hb _
    obtain ⟨t, pp, sc, pc, wc, hd, pn, iw, sz⟩ := node
    obtain ⟨hb1, hb2, hb3, hb4⟩ := hb
    simp only [static_children_mk, params_children_mk, wildcard_children_mk,
      handler_mk] at hb1 hb2 hb3 hb4
    subst hb1; subst hb2; subst hb3; subst hb4
    constructor
    · simp [addRoute, addParamChild, findParamChild, lookupChild]
    · intro v params0
      simp [addRoute, addParamChild, findParamChild, lookupChild, setChild,
        getValue, getParamChildren, getWildcardChildren]
  | cons s rest ih =>
    intro node name h hb hstat
    simp only [List.all_cons, Bool.and_eq_true] at hstat
    obtain ⟨hs, hrest⟩ := hstat
    obtain ⟨hs1, hs2⟩ := isStaticSeg_eq hs
    obtain ⟨t, pp, sc, pc, wc, hd, pn, iw, sz⟩ := node
    obtain ⟨hb1, hb2, hb3, hb4⟩ := hb
    simp only [static_children_mk, params_children_mk, wildcard_children_mk,
      handler_mk] at hb1 hb2 hb3 hb4
    subst hb1; subst hb2; subst hb3; subst hb4
    have ihr := ih (Node.mk NodeType.Static s [] [] [] none [] false 0) name h
      ⟨rfl, rfl, rfl, rfl⟩ hrest
    constructor
    · simp [addRoute, hs1, hs2, addStaticChild, lookupChild, ihr.1]
    · intro v params0
      simp [addRoute, hs1, hs2, addStaticChild, lookupChild, ihr.1, setChild,
        getValue, getParamChildren, ihr.2 v params0]

/-- Registering a single route whose last segment is a wildcard under a bare
node succeeds, and every lookup extending the prefix by at least one segment
returns exactly one route binding the wildcard name to the whole remaining
suffix. -/
theorem addRoute_wild_single :
    ∀ (p : List Seg) (node : Node) (name : Seg) (h : Nat),
      Bare node → p.all isStaticSeg = true →
      (addRoute node (p ++ ['*' :: name]) h).2 = Except.ok (p ++ ['*' :: name]) ∧
      ∀ (v : Seg) (vs : List Seg) (params0 : Params),
        getValue (addRoute node (p ++ ['*' :: name]) h).1 (p ++ v :: vs) params0 =
          [{ Handler := h, Params := params0 ++ [(name, v :: vs)] }] := by
  intro p
  induction p with
  | nil =>
    intro node name h hb _
    obtain ⟨t, pp, sc, pc, wc, hd, pn, iw, sz⟩ := node
    obtain ⟨hb1, hb2, hb3, hb4⟩ := hb
    simp only [static_children_mk, params_children_mk, wildcard_children_mk,
      handler_mk] at hb1 hb2 hb3 hb4
    subst hb1; subst hb2; subst hb3; subst hb4
    constructor
    · simp [addRoute, addWildcardChild, lookupChild]
    · intro v vs params0
      simp [addRoute, addWildcardChild, lookupChild, setChild,
        getValue, getParamChildren, getWildcardChildren]
  | cons s rest ih =>
    intro node name h hb hstat
    simp only [List.all_cons, Bool.and_eq_true] at hstat
    obtain ⟨hs, hrest⟩ := hstat
    obtain ⟨hs1, hs2⟩ := isStaticSeg_eq hs
    obtain ⟨t, pp, sc, pc, wc, hd, pn, iw, sz⟩ := node
    obtain ⟨hb1, hb2, hb3, hb4⟩ := hb
    simp only [static_children_mk, params_children_mk, wildcard_children_mk,
      handler_mk] at hb1 hb2 hb3 hb4
    subst hb1; subst hb2; subst hb3; subst hb4
    have ihr := ih (Node.mk NodeType.Static s [] [] [] none [] false 0) name h
      ⟨rfl, rfl, rfl, rfl⟩ hrest
    constructor
    · simp [addRoute, hs1, hs2, addStaticChild, lookupChild, ihr.1]
    · intro v vs params0
      simp [addRoute, hs1, hs2, addStaticChild, lookupChild, ihr.1, setChild,
        getValue, getParamChildren, ihr.2 v vs params0]

theorem routes_if_isEmpty (routes l : List Route) :
    (if l.isEmpty then routes else routes ++ l) = routes ++ l := by
  cases l <;> simp

theorem nil_if_isEmpty (l : List Route) :
    (if l.isEmpty then ([] : List Route) else l) = l := by
  cases l <;> simp

theorem getParamChildren_acc (rec : Node → Params → List Route)
    (children : List (Seg × Node)) (segment : Seg) (params : Params) :
    ∀ routes, getParamChildren rec children segment params routes =
      routes ++ getParamChildren rec children segment params [] := by
  induction children with
  | nil => intro routes; simp [getParamChildren]
  | cons kv rest ih =>
    intro routes
    obtain ⟨k, child⟩ := kv
    simp only [getParamChildren, routes_if_isEmpty, List.nil_append, nil_if_isEmpty]
    rw [ih, ih (rec child (params ++ [(child.paramName, [segment])]))]
    simp

theorem getWildcardChildren_acc (children : List (Seg × Node))
    (segments : List Seg) (params : Params) :
    ∀ routes, getWildcardChildren children segments params routes =
      routes ++ getWildcardChildren children segments params [] := by
  induction children with
  | nil => intro routes; simp [getWildcardChildren]
  | cons kv rest ih =>
    intro routes
    obtain ⟨k, child⟩ := kv
    cases hh : child.handler with
    | some h0 =>
      simp only [getWildcardChildren, hh, List.nil_append]
      rw [ih, ih [{ Handler := h0, Params := params ++ [(child.paramName, segments)] }]]
      simp
    | none =>
      simp only [getWildcardChildren, hh]
      rw [ih]

/-- `getValue` on a non-empty query is the concatenation, in this fixed
order, of the static tier, the parameter tier, and the wildcard tier. -/
theorem getValue_cons (node : Node) (segment : Seg) (remaining : List Seg)
    (params : Params) :
    getValue node (segment :: remaining) params =
      (match lookupChild node.static_children segment with
       | some child => getValue child remaining params
       | none => []) ++
      getParamChildren (fun c ps => getValue c remaining ps)
        node.params_children segment params [] ++
      getWildcardChildren node.wildcard_children (segment :: remaining) params [] := by
  rw [getValue]
  cases hl : lookupChild node.static_children segment with
  | none =>
    simp only [List.nil_append]
    cases hw : node.wildcard_children with
    | nil =>
      simp [getWildcardChildren]
    | cons a b =>
      rw [getWildcardChildren_acc]
  | some child =>
    simp only [routes_if_isEmpty, List.nil_append]
    rw [getParamChildren_acc]
    cases hw : node.wildcard_children with
    | nil =>
      simp [getWildcardChildren]
    | cons a b =>
      rw [getWildcardChildren_acc]
      simp

/-- The three structural invariants hold on every tree reachable from
`NewRadixTree` by a sequence of `Add` calls (successful or failed). -/
theorem applyAdds_inv :
    ∀ (reqs : List (List Seg × Nat)) (t : RadixTree),
      keysOK t.root = true → sizeAccurate t.root = true → wildTerminal t.root = true →
      keysOK (applyAdds reqs t).root = true ∧
        sizeAccurate (applyAdds reqs t).root = true ∧
        wildTerminal (applyAdds reqs t).root = true := by
  intro reqs
  induction reqs with
  | nil =>
    intro t k s w
    simpa [applyAdds] using ⟨k, s, w⟩
  | cons r rest ih =>
    intro t k s w
    obtain ⟨p, h⟩ := r
    simp only [applyAdds, RadixTree.Add]
    apply ih
    · exact addRoute_keysOK p t.root h k
    · cases hr : (addRoute t.root p h).2 with
      | ok q => exact (addRoute_ok_size p t.root h q hr s).1
      | error e =>
        rw [addRoute_error_eq p t.root h e hr]
        exact s
    · exact addRoute_wildTerminal p t.root h w

theorem applyAdds_rootPath :
    ∀ (reqs : List (List Seg × Nat)) (t : RadixTree),
      ((applyAdds reqs t).root).path = t.root.path := by
  intro reqs
  induction reqs with
  | nil => intro t; simp [applyAdds]
  | cons r rest ih =>
    intro t
    obtain ⟨p, h⟩ := r
    simp only [applyAdds, RadixTree.Add]
    rw [ih]
    exact (addRoute_core t.root p h).1

theorem NewRadixTree_keysOK : keysOK NewRadixTree.root = true :=
  keysOK_leaf _ _ _ _ _ _

theorem NewRadixTree_sizeAccurate : sizeAccurate NewRadixTree.root = true :=
  sizeAccurate_leaf _ _ _ _ _

theorem NewRadixTree_wildTerminal : wildTerminal NewRadixTree.root = true :=
  wildTerminal_leaf _ _ _ _ _ _

-- Sanity examples (concrete evaluations of the embedded operations).
example :
    ((NewRadixTree.Add ["users".toList] 1).1.Add ["users".toList] 2).2 =
      Except.error "handler already exists for this path" := by decide

example :
    (NewRadixTree.Add ["users".toList, ":id".toList] 7).1.Get
        ["users".toList, "42".toList] =
      [{ Handler := 7, Params := [("id".toList, ["42".toList])] }] := by decide

example :
    (NewRadixTree.Add ["files".toList, "*filepath".toList] 5).1.Get
        ["files".toList, "a".toList, "b.txt".toList] =
      [{ Handler := 5, Params := [("filepath".toList, ["a".toList, "b.txt".toList])] }] := by
  decide

example :
    (NewRadixTree.Add ["files".toList, "*filepath".toList] 5).1.Get ["files".toList] = [] := by
  decide

@[simp] theorem root_mk (n : Node) : (RadixTree.mk n).root = n := rfl

theorem PathName_eq (r : Node) (w : List Seg) :
    NodeWrapper.PathName ⟨r, w⟩ = pathNameAt r w := rfl

theorem Path_eq (r : Node) (w : List Seg) :
    NodeWrapper.Path ⟨r, w⟩ = (parentChain r w).reverse := rfl

-- Claims

/-- C1 (corrected): `Delete` never succeeds.  For every tree and every path,
registered or not, `Delete` returns the error "delete operation is not
implemented"; it clears no handler and changes no size. -/
theorem C1_delete_always_errors (t : RadixTree) (P : List Seg) :
    RadixTree.Delete t P = Except.error "delete operation is not implemented" := rfl

/-- C1 counterexample: after a successful `Add(["a"], 1)`, `Delete(["a"])`
does not return "no error" as the claim states — it returns the
not-implemented error. -/
theorem C1_counterexample :
    (NewRadixTree.Add ["a".toList] 1).2 = Except.ok ["a".toList] ∧
    RadixTree.Delete (NewRadixTree.Add ["a".toList] 1).1 ["a".toList] =
      Except.error "delete operation is not implemented" :=
  ⟨by decide, rfl⟩

/-- C2: `Get` returns every matching route: on a non-empty query the result
is the concatenation, in fixed order, of the matches through the literal
child, then the matches through each parameter child, then the matches
contributed by each wildcard child; concretely, with a literal route, a
parameter route and a wildcard route all matching the query `["x"]`, the
result lists the literal match first, the parameter match next, and the
wildcard match last. -/
theorem C2_get_all_matches_ordered :
    (∀ (node : Node) (segment : Seg) (remaining : List Seg) (params : Params),
      getValue node (segment :: remaining) params =
        (match lookupChild node.static_children segment with
         | some child => getValue child remaining params
         | none => []) ++
        getParamChildren (fun c ps => getValue c remaining ps)
          node.params_children segment params [] ++
        getWildcardChildren node.wildcard_children (segment :: remaining) params []) ∧
    ((((NewRadixTree.Add ["x".toList] 1).1.Add [":p".toList] 2).1.Add
        ["*w".toList] 3).1.Get ["x".toList] =
      [{ Handler := 1, Params := [] },
       { Handler := 2, Params := [("p".toList, ["x".toList])] },
       { Handler := 3, Params := [("w".toList, ["x".toList])] }]) :=
  ⟨getValue_cons, by decide⟩

/-- C3 (corrected): after any sequence of `Add` calls from a fresh tree,
every node's `size` equals, modulo 2^32, the number of handler-bearing nodes
strictly below it — the node's own handler is not counted, so the claim's
"itself included" reading is wrong and a fresh leaf's handle reports 0. -/
theorem C3_size_counts_proper_descendants (reqs : List (List Seg × Nat)) :
    sizeAccurate (applyAdds reqs NewRadixTree).root = true :=
  (applyAdds_inv reqs NewRadixTree NewRadixTree_keysOK NewRadixTree_sizeAccurate
    NewRadixTree_wildTerminal).2.1

/-- C3 counterexample: the handle returned by a successful `Add(["a"], 1)`
refers to a node that carries a handler, yet its `Size` is 0, not at least
1 as the claim states. -/
theorem C3_counterexample :
    NodeWrapper.Size ⟨(NewRadixTree.Add ["a".toList] 1).1.root, ["a".toList]⟩ = 0 ∧
    (subNode (NewRadixTree.Add ["a".toList] 1).1.root ["a".toList]).map Node.handler =
      some (some 1) := by decide

/-- C4 (corrected): inserting a wildcard as the last segment succeeds exactly
when no wildcard sibling with the same parameter name exists at that
position; with a same-name sibling present the call fails with the
"handler already exists for this path" error and mutates nothing.  Wildcards
with distinct names may coexist. -/
theorem C4_wildcard_same_name_rejected (node : Node) (s : Seg) (h : Nat)
    (hs : startsWithStar s = true) :
    ((addRoute node [s] h).2 = Except.ok [s] ↔
      lookupChild node.wildcard_children (dropSigil s) = none) ∧
    (lookupChild node.wildcard_children (dropSigil s) ≠ none →
      addRoute node [s] h = (node, Except.error "handler already exists for this path")) := by
  constructor
  · constructor
    · intro hok
      cases hl : lookupChild node.wildcard_children (dropSigil s) with
      | none => rfl
      | some c => simp [addRoute, hs, addWildcardChild, hl] at hok
    · intro hl
      simp [addRoute, hs, addWildcardChild, hl]
  · intro hl
    cases hl2 : lookupChild node.wildcard_children (dropSigil s) with
    | none => exact absurd hl2 hl
    | some c => simp [addRoute, hs, addWildcardChild, hl2]

theorem C4_witness :
    ((addRoute (NewRadixTree.Add ["*a".toList] 1).1.root ["*b".toList] 2).2 =
        Except.ok ["*b".toList] ↔
      lookupChild ((NewRadixTree.Add ["*a".toList] 1).1.root).wildcard_children
        (dropSigil "*b".toList) = none) ∧
    (lookupChild ((NewRadixTree.Add ["*a".toList] 1).1.root).wildcard_children
        (dropSigil "*b".toList) ≠ none →
      addRoute (NewRadixTree.Add ["*a".toList] 1).1.root ["*b".toList] 2 =
        ((NewRadixTree.Add ["*a".toList] 1).1.root,
          Except.error "handler already exists for this path")) :=
  C4_wildcard_same_name_rejected _ _ _ (by decide)

/-- C4 counterexample: a second wildcard route with the same name at the same
position does not "always succeed" — it fails with the duplicate error. -/
theorem C4_counterexample :
    (NewRadixTree.Add ["*w".toList] 1).2 = Except.ok ["*w".toList] ∧
    ((NewRadixTree.Add ["*w".toList] 1).1.Add ["*w".toList] 2).2 =
      Except.error "handler already exists for this path" := by decide

/-- C5: at the terminal step, `Add` fails with the duplicate error and keeps
the node (handler included) unchanged when a handler is already bound, and
otherwise binds the handler and returns the handle; consequently re-adding
any already registered path fails with that error and leaves the whole tree
(hence `Size`) unchanged. -/
theorem C5_duplicate_route :
    (∀ (n : Node) (h0 h : Nat), n.handler = some h0 →
      addRoute n [] h = (n, Except.error "handler already exists for this path")) ∧
    (∀ (n : Node) (h : Nat), n.handler = none →
      addRoute n [] h = (n.withHandler (some h), Except.ok [])) ∧
    (∀ (t : RadixTree) (P : List Seg) (h1 h2 : Nat) (t' : RadixTree) (w : List Seg),
      t.Add P h1 = (t', Except.ok w) →
      t'.Add P h2 = (t', Except.error "handler already exists for this path")) := by
  refine ⟨?_, ?_, ?_⟩
  · intro n h0 h hh
    simp [addRoute, hh]
  · intro n h hh
    simp [addRoute, hh]
  · intro t P h1 h2 t' w H
    simp only [RadixTree.Add] at H ⊢
    injection H with H1 H2
    have hpair : addRoute t.root P h1 = ((addRoute t.root P h1).1, Except.ok w) := by
      rw [← H2]
    have hagain := addRoute_again P t.root h1 h2 _ w hpair
    rw [← H1]
    simp only [root_mk]
    rw [hagain]

theorem C5_witness :
    (NewRadixTree.Add ["a".toList] 1).1.Add ["a".toList] 2 =
      ((NewRadixTree.Add ["a".toList] 1).1,
        Except.error "handler already exists for this path") :=
  C5_duplicate_route.2.2 NewRadixTree ["a".toList] 1 2 _ ["a".toList] rfl

/-- C6: for a route with literal prefix `p` and a parameter last segment,
`Get` on `p ++ [v]` binds the parameter name to the one-element list `[v]`;
for a route with literal prefix `p` and a wildcard last segment, `Get` on any
strictly longer query sharing the prefix returns a match binding the wildcard
name to the entire suffix from the wildcard's position. -/
theorem C6_bindings (p : List Seg) (name v : Seg) (vs : List Seg) (h : Nat)
    (hp : p.all isStaticSeg = true) :
    ((NewRadixTree.Add (p ++ [':' :: name]) h).2 = Except.ok (p ++ [':' :: name]) ∧
      (NewRadixTree.Add (p ++ [':' :: name]) h).1.Get (p ++ [v]) =
        [{ Handler := h, Params := [(name, [v])] }]) ∧
    ((NewRadixTree.Add (p ++ ['*' :: name]) h).2 = Except.ok (p ++ ['*' :: name]) ∧
      (NewRadixTree.Add (p ++ ['*' :: name]) h).1.Get (p ++ v :: vs) =
        [{ Handler := h, Params := [(name, v :: vs)] }]) := by
  have hb : Bare NewRadixTree.root := ⟨rfl, rfl, rfl, rfl⟩
  obtain ⟨ha1, ha2⟩ := addRoute_param_single p NewRadixTree.root name h hb hp
  obtain ⟨hw1, hw2⟩ := addRoute_wild_single p NewRadixTree.root name h hb hp
  refine ⟨⟨?_, ?_⟩, ?_, ?_⟩
  · simpa [RadixTree.Add] using ha1
  · simpa [RadixTree.Add, RadixTree.Get] using ha2 v []
  · simpa [RadixTree.Add] using hw1
  · simpa [RadixTree.Add, RadixTree.Get] using hw2 v vs []

theorem C6_witness :
    ((NewRadixTree.Add (["users".toList] ++ [':' :: "id".toList]) 7).2 =
        Except.ok (["users".toList] ++ [':' :: "id".toList]) ∧
      (NewRadixTree.Add (["users".toList] ++ [':' :: "id".toList]) 7).1.Get
          (["users".toList] ++ ["42".toList]) =
        [{ Handler := 7, Params := [("id".toList, ["42".toList])] }]) ∧
    ((NewRadixTree.Add (["users".toList] ++ ['*' :: "id".toList]) 7).2 =
        Except.ok (["users".toList] ++ ['*' :: "id".toList]) ∧
      (NewRadixTree.Add (["users".toList] ++ ['*' :: "id".toList]) 7).1.Get
          (["users".toList] ++ "42".toList :: ["x".toList]) =
        [{ Handler := 7, Params := [("id".toList, "42".toList :: ["x".toList])] }]) :=
  C6_bindings ["users".toList] "id".toList "42".toList ["x".toList] 7 (by decide)

/-- C7: `Add` fails with the "wildcard must be the last segment" error, and
registers nothing, whenever a wildcard segment is followed by further
segments; and after any sequence of `Add` calls every wildcard node in the
tree is terminal (has no children). -/
theorem C7_wildcard_must_be_last :
    (∀ (node : Node) (s : Seg) (rest : List Seg) (h : Nat),
      startsWithStar s = true → rest ≠ [] →
      addRoute node (s :: rest) h =
        (node, Except.error "wildcard must be the last segment")) ∧
    (∀ reqs : List (List Seg × Nat),
      wildTerminal (applyAdds reqs NewRadixTree).root = true) := by
  constructor
  · intro node s rest h hs hr
    cases rest with
    | nil => exact absurd rfl hr
    | cons a b => simp [addRoute, hs, addWildcardChild]
  · intro reqs
    exact (applyAdds_inv reqs NewRadixTree NewRadixTree_keysOK NewRadixTree_sizeAccurate
      NewRadixTree_wildTerminal).2.2

theorem C7_witness :
    addRoute NewRadixTree.root ["*a".toList, "b".toList] 5 =
      (NewRadixTree.root, Except.error "wildcard must be the last segment") ∧
    wildTerminal (applyAdds [(["x".toList], 1)] NewRadixTree).root = true :=
  ⟨C7_wildcard_must_be_last.1 NewRadixTree.root "*a".toList ["b".toList] 5 (by decide)
      (by decide),
    C7_wildcard_must_be_last.2 [(["x".toList], 1)]⟩

/-- C8: for the handle returned by a successful `Add(P, h)` on any tree built
by `Add` calls from a fresh tree, the spec-modelled `Path` (parent walk plus
reverse) yields exactly `P`, `PathName` is the stored text of the terminal
node (the last segment of `P`, sigil included), the `Parent` presence flag is
false exactly at the root, and `Equal` holds for the handle and itself. -/
theorem C8_node_handle (reqs : List (List Seg × Nat)) (P : List Seg) (h : Nat)
    (t' : RadixTree) (w : List Seg)
    (H : (applyAdds reqs NewRadixTree).Add P h = (t', Except.ok w)) :
    NodeWrapper.Path ⟨t'.root, w⟩ = P ∧
    NodeWrapper.PathName ⟨t'.root, w⟩ = P.getLastD [] ∧
    ((NodeWrapper.Parent ⟨t'.root, w⟩).2 = true ↔ P ≠ []) ∧
    NodeWrapper.Equal ⟨t'.root, w⟩ ⟨t'.root, w⟩ = true := by
  simp only [RadixTree.Add] at H
  injection H with H1 H2
  have hw : w = P := addRoute_ok_path P (applyAdds reqs NewRadixTree).root h w H2
  subst hw
  have hpair : addRoute (applyAdds reqs NewRadixTree).root w h =
      ((addRoute (applyAdds reqs NewRadixTree).root w h).1, Except.ok w) := by
    rw [← H2]
  have hK : keysOK (applyAdds reqs NewRadixTree).root = true :=
    (applyAdds_inv reqs NewRadixTree NewRadixTree_keysOK NewRadixTree_sizeAccurate
      NewRadixTree_wildTerminal).1
  have hroot : t'.root = (addRoute (applyAdds reqs NewRadixTree).root w h).1 := by
    rw [← H1]
  have hK2 : keysOK t'.root = true := by
    rw [hroot]
    exact addRoute_keysOK w (applyAdds reqs NewRadixTree).root h hK
  obtain ⟨m, hm, hmh⟩ :=
    addRoute_ok_subNode w (applyAdds reqs NewRadixTree).root h _ w hpair
  have hsome : (subNode t'.root w).isSome = true := by
    rw [hroot, hm]
    rfl
  refine ⟨?_, ?_, ?_, ?_⟩
  · rw [Path_eq]
    exact parentChain_reverse w t'.root hK2 hsome
  · rcases List.eq_nil_or_concat w with hP | ⟨u, s, hP⟩
    · subst hP
      have hrp : t'.root.path = [] := by
        rw [hroot, (addRoute_core _ _ _).1, applyAdds_rootPath]
        rfl
      rw [PathName_eq]
      simp [pathNameAt, subNode, hrp]
    · rw [List.concat_eq_append] at hP
      subst hP
      rw [PathName_eq, pathNameAt_snoc hK2 hsome]
      simp
  · simp [NodeWrapper.Parent]
  · simp [NodeWrapper.Equal]

theorem C8_witness :
    NodeWrapper.Path
        ⟨((applyAdds [] NewRadixTree).Add ["users".toList, ":id".toList] 7).1.root,
          ["users".toList, ":id".toList]⟩ = ["users".toList, ":id".toList] ∧
    NodeWrapper.PathName
        ⟨((applyAdds [] NewRadixTree).Add ["users".toList, ":id".toList] 7).1.root,
          ["users".toList, ":id".toList]⟩ =
      (["users".toList, ":id".toList]).getLastD [] ∧
    ((NodeWrapper.Parent
        ⟨((applyAdds [] NewRadixTree).Add ["users".toList, ":id".toList] 7).1.root,
          ["users".toList, ":id".toList]⟩).2 = true ↔
      (["users".toList, ":id".toList] : List Seg) ≠ []) ∧
    NodeWrapper.Equal
        ⟨((applyAdds [] NewRadixTree).Add ["users".toList, ":id".toList] 7).1.root,
          ["users".toList, ":id".toList]⟩
        ⟨((applyAdds [] NewRadixTree).Add ["users".toList, ":id".toList] 7).1.root,
          ["users".toList, ":id".toList]⟩ = true :=
  C8_node_handle [] ["users".toList, ":id".toList] 7 _ ["users".toList, ":id".toList] rfl

/-- C9: a failed `Add` is atomic — the tree value is exactly what it was, so
every subsequent `Get` and `Size` observe the state from before the call and
no handler was bound anywhere. -/
theorem C9_add_atomic_on_error (t : RadixTree) (P : List Seg) (h : Nat)
    (t' : RadixTree) (e : String) (H : t.Add P h = (t', Except.error e)) :
    t' = t ∧ t'.Get = t.Get ∧ t'.Size = t.Size := by
  simp only [RadixTree.Add] at H
  injection H with H1 H2
  have heq := addRoute_error_eq P t.root h e H2
  have ht : t' = t := by
    rw [← H1, heq]
  exact ⟨ht, by rw [ht], by rw [ht]⟩

theorem C9_witness :
    (NewRadixTree.Add ["*a".toList, "b".toList] 5).1 = NewRadixTree ∧
    ((NewRadixTree.Add ["*a".toList, "b".toList] 5).1).Get = NewRadixTree.Get ∧
    ((NewRadixTree.Add ["*a".toList, "b".toList] 5).1).Size = NewRadixTree.Size :=
  C9_add_atomic_on_error NewRadixTree ["*a".toList, "b".toList] 5 _
    "wildcard must be the last segment" rfl
